import Mathlib

/-!
# DMARC aggregate report decoding (go-dmarc)

A model of `parse.go` and `xml.go`.  `Parse`, `GzipParse` and `ZipParse` hand a
byte stream to `encoding/xml`, which fills the `Feedback` structure by
reflection over the `xml:"..."` struct tags of `xml.go`.

The model has three layers.

* The token layer: what `Decoder.Token` of `encoding/xml` makes of the raw
  tokens in strict mode, with its stack of open elements (names as written)
  and its name space bindings, and `Decoder.Skip`.
* The unmarshal layer: `unmarshal` follows `Decoder.unmarshal` of
  `encoding/xml` for the kinds of Go type that occur in `xml.go` (string, int,
  float32, struct, and struct fields of slice type), driven by a description
  of each struct read off its tags.
* The entry points `Parse`, `GzipParse`, `ZipParse`.

The byte-level XML tokenizer, `strconv.ParseFloat`, gzip and zip are outside
the program; they are parameters (`Lib`).
-/

namespace Dmarc

/-! ## Tokens -/

/-- An XML name (`xml.Name`): name space and local part.  In what the tokenizer
produces, `Space` is the prefix as written; `Decoder.Token` puts the name space
bound to the prefix in its place (`translate`). -/
structure Name where
  Space : String
  Local : String
  deriving DecidableEq, Repr

/-- An attribute of a start tag. -/
structure Attr where
  Name : Name
  Value : String
  deriving DecidableEq, Repr

/-- The tokens of `encoding/xml` (`xml.Token`). -/
inductive Token where
  | StartElement (name : Name) (attr : List Attr)
  | EndElement (name : Name)
  | CharData (data : String)
  | Comment (data : String)
  | ProcInst (target : String) (inst : String)
  | Directive (data : String)
  deriving DecidableEq, Repr

/-- The two causes of a `strconv.NumError`. -/
inductive NumErr where
  | ErrSyntax
  | ErrRange
  deriving DecidableEq, Repr

/-- Error values that reach the program. -/
inductive Error where
  /-- The error `io.EOF`. -/
  | EOF
  /-- An `xml.SyntaxError` with its message. -/
  | SyntaxError (msg : String)
  /-- An `xml.UnmarshalError` with its message. -/
  | UnmarshalError (msg : String)
  /-- A `strconv.NumError`: function, input, cause. -/
  | NumError (func : String) (num : String) (err : NumErr)
  /-- Any error of an outside library (reader, gzip, zip). -/
  | other (msg : String)
  deriving DecidableEq, Repr

/-- One item the tokenizer (`rawToken`) produces from the byte stream: a token
with its names as written, or the error at which tokenizing stops (bytes that
are not XML, a failed read). -/
inductive Raw where
  | tok (t : Token)
  | fail (e : Error)
  deriving DecidableEq, Repr

/-- An entry of the stack of an `xml.Decoder`: an open element with its name as
written (`stkStart`), or a binding of a prefix to restore when the element above
it ends (`stkNs`: the prefix, the name space it had, whether it had one). -/
inductive Entry where
  | start (name : Name)
  | ns (pfx : String) (url : String) (ok : Bool)
  deriving DecidableEq, Repr

/-- The map `d.ns` of an `xml.Decoder`, from prefix to name space. -/
abbrev NsMap : Type := String → Option String

/-- Go: `d.ns[k] = v`. -/
def NsMap.set (m : NsMap) (k v : String) : NsMap :=
  fun x => if x = k then some v else m x

/-- Go: `delete(d.ns, k)`. -/
def NsMap.delete (m : NsMap) (k : String) : NsMap :=
  fun x => if x = k then none else m x

/-- The state of an `xml.Decoder`: the items still to come, the stack, and the
bindings of prefixes in force. -/
structure Decoder where
  input : List Raw
  stk : List Entry
  ns : NsMap

/-- The name space declarations among the attributes of a start tag, as
`Decoder.Token` takes them in: for `xmlns:p="u"` and for `xmlns="u"` the old
binding goes on the stack (`pushNs`) and the new one into the map. -/
def Decoder.declare : List Attr → List Entry → NsMap → List Entry × NsMap
  | [], stk, ns => (stk, ns)
  | a :: rest, stk, ns =>
    let (stk1, ns1) :=
      if a.Name.Space = "xmlns" then
        (Entry.ns a.Name.Local ((ns a.Name.Local).getD "") (ns a.Name.Local).isSome :: stk,
          ns.set a.Name.Local a.Value)
      else (stk, ns)
    let (stk2, ns2) :=
      if a.Name.Space = "" ∧ a.Name.Local = "xmlns" then
        (Entry.ns "" ((ns1 "").getD "") (ns1 "").isSome :: stk1, ns1.set "" a.Value)
      else (stk1, ns1)
    Decoder.declare rest stk2 ns2

/-- The method `Decoder.translate`: the name with the name space of its prefix
in `Space`.  The default name space applies to element names only; the
`DefaultSpace` of a decoder made by `xml.NewDecoder` is empty. -/
def translate (ns : NsMap) (n : Name) (isElementName : Bool) : Name :=
  if n.Space = "xmlns" then n
  else if n.Space = "" ∧ isElementName = false then n
  else if n.Space = "xml" then
    match ns "http://www.w3.org/XML/1998/namespace" with
    | some v => ⟨v, n.Local⟩
    | none => ⟨"http://www.w3.org/XML/1998/namespace", n.Local⟩
  else if n.Space = "" ∧ n.Local = "xmlns" then n
  else
    match ns n.Space with
    | some v => ⟨v, n.Local⟩
    | none => if n.Space = "" then ⟨"", n.Local⟩ else n

/-- The end of `popElement`: the bindings stacked below the element that closes
are taken off and undone, down to the next open element. -/
def Decoder.unwind : List Entry → NsMap → List Entry × NsMap
  | .ns p url ok :: rest, ns =>
    Decoder.unwind rest (if ok then ns.set p url else ns.delete p)
  | stk, ns => (stk, ns)

/-- Between two calls of `Decoder.Token` no binding lies on top of the stack:
the bindings of a start tag are covered by its element at once. -/
def NoPending : List Entry → Prop
  | .ns _ _ _ :: _ => False
  | _ => True

/-- One raw item as `Decoder.Token` handles it in strict mode.  A start tag
declares its name spaces, goes on the stack with its name as written
(`pushElement`), and is returned with its names translated.  An end tag is
checked against the name as written on top of the stack (`popElement`), then
translated, and the bindings of the element are undone. -/
def Decoder.step (r : Raw) (stk : List Entry) (ns : NsMap) :
    Except Error (Token × List Entry × NsMap) :=
  match r with
  | .fail e => .error e
  | .tok (.StartElement n a) =>
    let (stk1, ns1) := Decoder.declare a stk ns
    .ok (.StartElement (translate ns1 n true)
      (a.map (fun x => ⟨translate ns1 x.Name false, x.Value⟩)), .start n :: stk1, ns1)
  | .tok (.EndElement n) =>
    match stk with
    | .start s :: rest =>
      if s.Local ≠ n.Local then
        .error (.SyntaxError ("element <" ++ s.Local ++ "> closed by </" ++ n.Local ++ ">"))
      else if s.Space ≠ n.Space then
        .error (.SyntaxError ("element <" ++ s.Local ++ "> in space " ++ s.Space ++
          " closed by </" ++ n.Local ++ "> in space " ++
          (if n.Space = "" then "\"\"" else n.Space)))
      else
        let (stk1, ns1) := Decoder.unwind rest ns
        .ok (.EndElement (translate ns n true), stk1, ns1)
    | _ => .error (.SyntaxError ("unexpected end element </" ++ n.Local ++ ">"))
  | .tok t => .ok (t, stk, ns)

/-- The method `Decoder.Token`: the next token and the decoder after it, or the
error.  At the end of input it is `io.EOF` when the stack is empty and a syntax
error otherwise. -/
def Decoder.Token (d : Decoder) : Except Error (Token × Decoder) :=
  match d.input with
  | [] => if d.stk.isEmpty then .error .EOF else .error (.SyntaxError "unexpected EOF")
  | r :: rest =>
    match Decoder.step r d.stk d.ns with
    | .error e => .error e
    | .ok (t, stk, ns) => .ok (t, ⟨rest, stk, ns⟩)

/-- The loop of `Decoder.Skip`: read tokens until the end of the element that is
open, counting nested start tags in `depth`. -/
def Decoder.skipLoop : List Raw → List Entry → NsMap → Nat → Except Error Decoder
  | [], stk, _, _ =>
    if stk.isEmpty then .error .EOF else .error (.SyntaxError "unexpected EOF")
  | r :: rest, stk, ns, depth =>
    match Decoder.step r stk ns with
    | .error e => .error e
    | .ok (.StartElement _ _, stk1, ns1) => Decoder.skipLoop rest stk1 ns1 (depth + 1)
    | .ok (.EndElement _, stk1, ns1) =>
      if depth = 0 then .ok ⟨rest, stk1, ns1⟩ else Decoder.skipLoop rest stk1 ns1 (depth - 1)
    | .ok (_, stk1, ns1) => Decoder.skipLoop rest stk1 ns1 depth

/-- The method `Decoder.Skip`. -/
def Decoder.Skip (d : Decoder) : Except Error Decoder :=
  Decoder.skipLoop d.input d.stk d.ns 0

/-! ## Scalars: `strings.TrimSpace`, `strconv.ParseInt` -/

/-- The predicate `unicode.IsSpace`. -/
def isSpace (c : Char) : Bool :=
  c = '\t' || c = '\n' || c = '\x0b' || c = '\x0c' || c = '\r' || c = ' ' ||
  c.toNat = 0x85 || c.toNat = 0xA0 || c.toNat = 0x1680 ||
  (0x2000 ≤ c.toNat && c.toNat ≤ 0x200a) ||
  c.toNat = 0x2028 || c.toNat = 0x2029 || c.toNat = 0x202f || c.toNat = 0x205f ||
  c.toNat = 0x3000

/-- The function `strings.TrimSpace`. -/
def TrimSpace (s : String) : String :=
  String.mk ((s.data.dropWhile isSpace).reverse.dropWhile isSpace).reverse

/-- Width of the Go type `int` (a 64-bit platform). -/
def intSize : Nat := 64

/-- The digit loop of `strconv.ParseUint` for base 10 and 64 bits, on 64-bit
machine words. -/
def parseUintLoop : List Char → Nat → Except NumErr Nat
  | [], n => .ok n
  | c :: cs, n =>
    if '0' ≤ c ∧ c ≤ '9' then
      let d := c.toNat - '0'.toNat
      -- cutoff: the smallest number such that cutoff*10 > maxUint64
      if n ≥ (2 ^ 64 - 1) / 10 + 1 then .error .ErrRange
      else
        let n10 := (n * 10) % 2 ^ 64
        let n1 := (n10 + d) % 2 ^ 64
        if n1 < n10 ∨ n1 > 2 ^ 64 - 1 then .error .ErrRange
        else parseUintLoop cs n1
    else .error .ErrSyntax

/-- The function `strconv.ParseUint(s, 10, 64)`; on a range error Go also returns
the largest value, which `ParseInt` goes on to test. -/
def ParseUint (s : List Char) : Except NumErr Nat :=
  match s with
  | [] => .error .ErrSyntax
  | _ => parseUintLoop s 0

/-- The function `strconv.ParseInt(s, 10, 64)`. -/
def ParseInt (s : String) : Except Error Int :=
  match s.data with
  | [] => .error (.NumError "ParseInt" s .ErrSyntax)
  | c :: cs =>
    let neg := c = '-'
    let digits := if c = '+' ∨ c = '-' then cs else c :: cs
    match ParseUint digits with
    | .error .ErrSyntax => .error (.NumError "ParseInt" s .ErrSyntax)
    | .error .ErrRange => .error (.NumError "ParseInt" s .ErrRange)
    | .ok un =>
      let cutoff := 2 ^ (intSize - 1)
      if ¬ neg ∧ un ≥ cutoff then .error (.NumError "ParseInt" s .ErrRange)
      else if neg ∧ un > cutoff then .error (.NumError "ParseInt" s .ErrRange)
      else .ok (if neg then - (un : Int) else (un : Int))

/-- The decimal digit `d` as a character. -/
def digitChar (d : Nat) : Char := Char.ofNat (48 + d)

/-- Whether the character is a decimal digit. -/
def isDigit (c : Char) : Bool := decide ('0' ≤ c ∧ c ≤ '9')

/-- The decimal digits of `n` put in front of `acc`, the last digit first; a
budget above `n` is never used up. -/
def decimalDigits : Nat → Nat → List Char → List Char
  | 0, _, acc => acc
  | fuel + 1, n, acc =>
    if n < 10 then digitChar n :: acc
    else decimalDigits fuel (n / 10) (digitChar (n % 10) :: acc)

/-- The decimal numeral of an integer as a report states it: a minus sign for a
negative number, then the digits without leading zero.  It is the reference the
numbers `ParseInt` reads are measured against (`intAt_decimal`); no code of the
program computes it. -/
def decimal (i : Int) : String :=
  if i < 0 then String.mk ('-' :: decimalDigits (i.natAbs + 1) i.natAbs [])
  else String.mk (decimalDigits (i.natAbs + 1) i.natAbs [])

/-- A float32 value, by its IEEE 754 bit pattern. -/
structure Float32 where
  bits : Nat
  deriving DecidableEq, Repr

/-! ## Go types and values, as reflection shows them to `encoding/xml` -/

/-- The kinds of Go type that occur in `xml.go`.  A struct is given by its
fields in declaration order: the element name of the `xml` tag, whether the
field is a slice (a repeated element), and the kind of the field (of the slice
element for a slice). -/
inductive Kind where
  | string
  | int
  | float32
  | struct (fields : List (String × Bool × Kind))
  deriving Repr

/-- One field of a struct: element name, repeated, kind. -/
abbrev Field : Type := String × Bool × Kind

/-- Element name of the field (its `xml` tag). -/
def Field.name (f : Field) : String := f.1

/-- Whether the field is a slice. -/
def Field.repeated (f : Field) : Bool := f.2.1

/-- Kind of the field, or of its elements for a slice. -/
def Field.kind (f : Field) : Kind := f.2.2

/-- A Go value of one of these kinds; a struct holds its fields in declaration
order. -/
inductive Val where
  | str (s : String)
  | int (i : Int)
  | f32 (x : Float32)
  | struct (fields : List Val)
  | slice (elems : List Val)
  deriving Repr

mutual
/-- The zero value of a kind (`reflect.Zero`). -/
def Kind.zero : Kind → Val
  | .string => .str ""
  | .int => .int 0
  | .float32 => .f32 ⟨0⟩
  | .struct fs => .struct (Kind.zeroFields fs)
/-- The zero values of the fields of a struct; a slice is nil. -/
def Kind.zeroFields : List (String × Bool × Kind) → List Val
  | [] => []
  | (_, rep, k) :: fs => (if rep then Val.slice [] else k.zero) :: Kind.zeroFields fs
end

/-- The field in position `i` of a struct value. -/
def Val.field : Val → Nat → Val
  | .struct vs, i => vs.getD i (.str "")
  | _, _ => .str ""

/-- The struct value with the field in position `i` replaced. -/
def Val.setField : Val → Nat → Val → Val
  | .struct vs, i, x => .struct (vs.set i x)
  | v, _, _ => v

/-- A slice value grown by one element (`reflect.Append`). -/
def Val.push : Val → Val → Val
  | .slice xs, x => .slice (xs ++ [x])
  | _, x => .slice [x]

/-- The first field, in declaration order, whose element name is `n`, with its
position: the search of `unmarshalPath` for tags without a parent path. -/
def lookup : List Field → String → Nat → Option (Nat × Field)
  | [], _, _ => none
  | f :: fs, n, i => if f.name = n then some (i, f) else lookup fs n (i + 1)

/-- The field of a kind that takes a child element named `n`; none for a kind
that is no struct. -/
def Kind.field? : Kind → String → Option (Nat × Field)
  | .struct fs, n => lookup fs n 0
  | _, _ => none

/-- Whether character data is kept (`saveData`): so for the scalar kinds. -/
def Kind.savesData : Kind → Bool
  | .struct _ => false
  | _ => true

/-- The function `copyValue` of `encoding/xml`: store the character data
gathered for an element into a value of the kind.  `pf` is
`strconv.ParseFloat(s, 32)`. -/
def copyValue (pf : String → Except Error Float32) (k : Kind) (v : Val) (data : String) :
    Except Error Val :=
  match k with
  | .string => .ok (.str data)
  | .int =>
    if data = "" then .ok (.int 0)
    else
      match ParseInt (TrimSpace data) with
      | .ok i => .ok (.int i)
      | .error e => .error e
  | .float32 =>
    if data = "" then .ok (.f32 ⟨0⟩)
    else
      match pf (TrimSpace data) with
      | .ok x => .ok (.f32 x)
      | .error e => .error e
  | .struct _ => .ok v

/-- How a call of `unmarshal` ends: returned nil (with the decoder after it),
returned an error, or the recursion budget of the model ran out. -/
inductive Outcome where
  | ok (d : Decoder)
  | err (e : Error)
  | stuck

/-- The method `Decoder.unmarshal` of `encoding/xml`, from the point where the
start tag of the element has been read: the loop "find end element, process
sub-elements along the way", then `copyValue`.  The value `v` is updated in
place, so what was stored before an error stays.  `data` is the character data
gathered so far.  A child element goes to the field `unmarshalPath` finds; for a
slice field the slice grows by a zero element that receives the child, and is
cut back to its old length when that fails; a child without a field is skipped.
Every call reads a token first, so a budget above the number of items left is
never used up (`unmarshal_total`).  The depth limit of `encoding/xml` (10000
nested calls) is left out: the types of `xml.go` nest six deep, and skipped
elements are read by `Skip`, which does not recurse. -/
def unmarshal (pf : String → Except Error Float32) :
    Nat → Kind → Val → String → Decoder → Val × Outcome
  | 0, _, v, _, _ => (v, .stuck)
  | fuel + 1, k, v, data, d =>
    match d.Token with
    | .error e => (v, .err e)
    | .ok (tok, d1) =>
      match tok with
      | .StartElement n _ =>
        match k.field? n.Local with
        | some (i, f) =>
          if f.repeated then
            match unmarshal pf fuel f.kind f.kind.zero "" d1 with
            | (x, .ok d2) => unmarshal pf fuel k (v.setField i ((v.field i).push x)) data d2
            | (_, out) => (v, out)
          else
            match unmarshal pf fuel f.kind (v.field i) "" d1 with
            | (x, .ok d2) => unmarshal pf fuel k (v.setField i x) data d2
            | (x, out) => (v.setField i x, out)
        | none =>
          match d1.Skip with
          | .error e => (v, .err e)
          | .ok d2 => unmarshal pf fuel k v data d2
      | .EndElement _ =>
        match copyValue pf k v data with
        | .ok v1 => (v1, .ok d1)
        | .error e => (v, .err e)
      | .CharData s => unmarshal pf fuel k v (if k.savesData then data ++ s else data) d1
      | _ => unmarshal pf fuel k v data d1

/-- The first loop of `Decoder.unmarshal` when no start element is given: read
tokens up to the first start tag. -/
def findStart : List Raw → List Entry → NsMap → Except Error (Name × Decoder)
  | [], stk, _ => if stk.isEmpty then .error .EOF else .error (.SyntaxError "unexpected EOF")
  | r :: rest, stk, ns =>
    match Decoder.step r stk ns with
    | .error e => .error e
    | .ok (.StartElement n _, stk1, ns1) => .ok (n, ⟨rest, stk1, ns1⟩)
    | .ok (_, stk1, ns1) => findStart rest stk1 ns1

/-! ## The data model of `xml.go` -/

/-- The string of a string value. -/
def Val.toStr : Val → String
  | .str s => s
  | _ => ""

/-- The integer of an int value. -/
def Val.toInt : Val → Int
  | .int i => i
  | _ => 0

/-- The float of a float32 value. -/
def Val.toF32 : Val → Float32
  | .f32 x => x
  | _ => ⟨0⟩

/-- The elements of a slice value. -/
def Val.toList : Val → List Val
  | .slice xs => xs
  | _ => []

/-- Go: `type DateRange struct`. -/
structure DateRange where
  Begin : Int
  End : Int
  deriving DecidableEq, Repr

/-- Go: `type Metadata struct`. -/
structure Metadata where
  OrgName : String
  Email : String
  ExtraContactInfo : String
  ReportId : String
  DateRange : DateRange
  Error : List String
  deriving DecidableEq, Repr

/-- Go: `type Alignment string`. -/
abbrev Alignment : Type := String

/-- Go: `type Disposition string`. -/
abbrev Disposition : Type := String

/-- Go: `type PolicyPublished struct`. -/
structure PolicyPublished where
  Domain : String
  Adkim : Alignment
  Aspf : Alignment
  P : Disposition
  Sp : Disposition
  Pct : Int
  Fo : String
  deriving DecidableEq, Repr

/-- Go: `type DMARCResult string`. -/
abbrev DMARCResult : Type := String

/-- Go: `type PolicyOverrideType string`. -/
abbrev PolicyOverrideType : Type := String

/-- Go: `type PolicyOverrideReason struct`; `Typ` is the Go field `Type`. -/
structure PolicyOverrideReason where
  Typ : PolicyOverrideType
  Comment : String
  deriving DecidableEq, Repr

/-- Go: `type PolicyEvaluated struct`. -/
structure PolicyEvaluated where
  Disposition : Disposition
  Dkim : DMARCResult
  Spf : DMARCResult
  OverrideReasons : List PolicyOverrideReason
  deriving DecidableEq, Repr

/-- Go: `type Row struct`. -/
structure Row where
  SourceIp : String
  Count : Int
  PolicyEvaluated : PolicyEvaluated
  deriving DecidableEq, Repr

/-- Go: `type Identifier struct`. -/
structure Identifier where
  EnvelopeTo : String
  MailFrom : String
  HeaderFrom : String
  deriving DecidableEq, Repr

/-- Go: `type DKIMResult string`. -/
abbrev DKIMResult : Type := String

/-- Go: `type DKIMAuthResult struct`. -/
structure DKIMAuthResult where
  Domain : String
  Selector : String
  Result : DKIMResult
  HumanResult : String
  deriving DecidableEq, Repr

/-- Go: `type SPFDomainScope string`. -/
abbrev SPFDomainScope : Type := String

/-- Go: `type SPFResult string`. -/
abbrev SPFResult : Type := String

/-- Go: `type SPFAuthResult struct`. -/
structure SPFAuthResult where
  Domain : String
  Scope : SPFDomainScope
  Result : SPFResult
  deriving DecidableEq, Repr

/-- Go: `type AuthResult struct`. -/
structure AuthResult where
  Dkim : List DKIMAuthResult
  Spf : List SPFAuthResult
  deriving DecidableEq, Repr

/-- Go: `type Record struct`. -/
structure Record where
  Row : Row
  Identifier : Identifier
  AuthResult : AuthResult
  deriving DecidableEq, Repr

/-- Go: `type Feedback struct`. -/
structure Feedback where
  XMLName : Name
  Version : Float32
  Metadata : Metadata
  Policy : PolicyPublished
  Records : List Record
  deriving DecidableEq, Repr

/-! ### The struct tags, and the typed reading of a decoded value -/

/-- Tags of `DateRange`. -/
def DateRange.kind : Kind :=
  .struct [("begin", false, .int), ("end", false, .int)]

/-- Tags of `Metadata`. -/
def Metadata.kind : Kind :=
  .struct [("org_name", false, .string), ("email", false, .string),
    ("extra_contact_info", false, .string), ("report_id", false, .string),
    ("date_range", false, DateRange.kind), ("error", true, .string)]

/-- Tags of `PolicyPublished`. -/
def PolicyPublished.kind : Kind :=
  .struct [("domain", false, .string), ("adkim", false, .string), ("aspf", false, .string),
    ("p", false, .string), ("sp", false, .string), ("pct", false, .int),
    ("fo", false, .string)]

/-- Tags of `PolicyOverrideReason`. -/
def PolicyOverrideReason.kind : Kind :=
  .struct [("type", false, .string), ("comment", false, .string)]

/-- Tags of `PolicyEvaluated`. -/
def PolicyEvaluated.kind : Kind :=
  .struct [("disposition", false, .string), ("dkim", false, .string), ("spf", false, .string),
    ("reason", true, PolicyOverrideReason.kind)]

/-- Tags of `Row`. -/
def Row.kind : Kind :=
  .struct [("source_ip", false, .string), ("count", false, .int),
    ("policy_evaluated", false, PolicyEvaluated.kind)]

/-- Tags of `Identifier`. -/
def Identifier.kind : Kind :=
  .struct [("envelope_to", false, .string), ("mail_from", false, .string),
    ("header_from", false, .string)]

/-- Tags of `DKIMAuthResult`. -/
def DKIMAuthResult.kind : Kind :=
  .struct [("domain", false, .string), ("selector", false, .string),
    ("result", false, .string), ("human_result", false, .string)]

/-- Tags of `SPFAuthResult`. -/
def SPFAuthResult.kind : Kind :=
  .struct [("domain", false, .string), ("scope", false, .string), ("result", false, .string)]

/-- Tags of `AuthResult`. -/
def AuthResult.kind : Kind :=
  .struct [("dkim", true, DKIMAuthResult.kind), ("spf", true, SPFAuthResult.kind)]

/-- Tags of `Record`. -/
def Record.kind : Kind :=
  .struct [("row", false, Row.kind), ("identifiers", false, Identifier.kind),
    ("auth_results", false, AuthResult.kind)]

/-- Tags of `Feedback`.  The field `XMLName` is no element field: `encoding/xml`
keeps it apart (`typeInfo.xmlname`) and checks the start tag against it. -/
def Feedback.kind : Kind :=
  .struct [("version", false, .float32), ("report_metadata", false, Metadata.kind),
    ("policy_published", false, PolicyPublished.kind), ("record", true, Record.kind)]

/-- A decoded value read as a `DateRange`. -/
def DateRange.ofVal (v : Val) : DateRange :=
  ⟨(v.field 0).toInt, (v.field 1).toInt⟩

/-- A decoded value read as a `Metadata`. -/
def Metadata.ofVal (v : Val) : Metadata :=
  ⟨(v.field 0).toStr, (v.field 1).toStr, (v.field 2).toStr, (v.field 3).toStr,
    DateRange.ofVal (v.field 4), (v.field 5).toList.map Val.toStr⟩

/-- A decoded value read as a `PolicyPublished`. -/
def PolicyPublished.ofVal (v : Val) : PolicyPublished :=
  ⟨(v.field 0).toStr, (v.field 1).toStr, (v.field 2).toStr, (v.field 3).toStr,
    (v.field 4).toStr, (v.field 5).toInt, (v.field 6).toStr⟩

/-- A decoded value read as a `PolicyOverrideReason`. -/
def PolicyOverrideReason.ofVal (v : Val) : PolicyOverrideReason :=
  ⟨(v.field 0).toStr, (v.field 1).toStr⟩

/-- A decoded value read as a `PolicyEvaluated`. -/
def PolicyEvaluated.ofVal (v : Val) : PolicyEvaluated :=
  ⟨(v.field 0).toStr, (v.field 1).toStr, (v.field 2).toStr,
    (v.field 3).toList.map PolicyOverrideReason.ofVal⟩

/-- A decoded value read as a `Row`. -/
def Row.ofVal (v : Val) : Row :=
  ⟨(v.field 0).toStr, (v.field 1).toInt, PolicyEvaluated.ofVal (v.field 2)⟩

/-- A decoded value read as an `Identifier`. -/
def Identifier.ofVal (v : Val) : Identifier :=
  ⟨(v.field 0).toStr, (v.field 1).toStr, (v.field 2).toStr⟩

/-- A decoded value read as a `DKIMAuthResult`. -/
def DKIMAuthResult.ofVal (v : Val) : DKIMAuthResult :=
  ⟨(v.field 0).toStr, (v.field 1).toStr, (v.field 2).toStr, (v.field 3).toStr⟩

/-- A decoded value read as an `SPFAuthResult`. -/
def SPFAuthResult.ofVal (v : Val) : SPFAuthResult :=
  ⟨(v.field 0).toStr, (v.field 1).toStr, (v.field 2).toStr⟩

/-- A decoded value read as an `AuthResult`. -/
def AuthResult.ofVal (v : Val) : AuthResult :=
  ⟨(v.field 0).toList.map DKIMAuthResult.ofVal, (v.field 1).toList.map SPFAuthResult.ofVal⟩

/-- A decoded value read as a `Record`. -/
def Record.ofVal (v : Val) : Record :=
  ⟨Row.ofVal (v.field 0), Identifier.ofVal (v.field 1), AuthResult.ofVal (v.field 2)⟩

/-- A decoded value, with the name stored in `XMLName`, read as a `Feedback`. -/
def Feedback.ofVal (name : Name) (v : Val) : Feedback :=
  ⟨name, (v.field 0).toF32, Metadata.ofVal (v.field 1), PolicyPublished.ofVal (v.field 2),
    (v.field 3).toList.map Record.ofVal⟩

/-- Go: `Feedback{}`. -/
def Feedback.zero : Feedback :=
  Feedback.ofVal ⟨"", ""⟩ Feedback.kind.zero

/-! ## The entry points of `parse.go` -/

/-- What `Decode` returned next to the value it filled: nil, an error, or (never,
see `Decode_total`) the budget of the model ran out. -/
inductive Status where
  | nil
  | err (e : Error)
  | stuck
  deriving DecidableEq, Repr

/-- The call `xml.NewDecoder(r).Decode(&data)` on `data := Feedback{}`, given the
raw items the tokenizer makes of `r`: the value `data` holds afterwards, and the
error returned.  A new decoder has an empty stack and no prefix bound.  The
first start tag must be named `feedback` (the tag of `XMLName`); its translated
name goes to `XMLName`. -/
def Decode (pf : String → Except Error Float32) (input : List Raw) : Feedback × Status :=
  match findStart input [] (fun _ => none) with
  | .error e => (Feedback.zero, .err e)
  | .ok (start, d) =>
    if start.Local ≠ "feedback" then
      (Feedback.zero, .err (.UnmarshalError
        ("expected element type <feedback> but have <" ++ start.Local ++ ">")))
    else
      match unmarshal pf (d.input.length + 1) Feedback.kind Feedback.kind.zero "" d with
      | (v, .ok _) => (Feedback.ofVal start v, .nil)
      | (v, .err e) => (Feedback.ofVal start v, .err e)
      | (v, .stuck) => (Feedback.ofVal start v, .stuck)

/-- An `io.Reader`: the bytes it yields, then `io.EOF` or a read error. -/
structure Reader where
  bytes : List UInt8
  fails : Option Error
  deriving DecidableEq, Repr

/-- A file entry of a zip archive (`zip.File`): its name and what `Open`
returns. -/
structure ZipFile where
  Name : String
  Open : Except Error Reader

/-- The libraries and the file system the program calls. -/
structure Lib where
  /-- The tokenizer of `encoding/xml` on a reader. -/
  rawTokens : Reader → List Raw
  /-- The function `strconv.ParseFloat(s, 32)`. -/
  ParseFloat32 : String → Except Error Float32
  /-- The function `gzip.NewReader`: reads the gzip header. -/
  gzipNewReader : Reader → Except Error Reader
  /-- The function `zip.OpenReader`: the file entries of the archive at a path. -/
  zipOpenReader : String → Except Error (List ZipFile)

/-- What the caller of a Go function sees: a result, or a panic. -/
inductive Result where
  | returns (data : Feedback)
  /-- The call `panic(err)` on an error value. -/
  | panics (err : Error)
  /-- A run-time panic: index out of range. -/
  | indexOutOfRange (index : Nat) (length : Nat)
  deriving DecidableEq, Repr

/-- Go: `func Parse(r io.Reader) Feedback`.  The error of `Decode` is dropped. -/
def Parse (L : Lib) (r : Reader) : Feedback :=
  (Decode L.ParseFloat32 (L.rawTokens r)).1

/-- Go: `func GzipParse(r io.Reader) Feedback`. -/
def GzipParse (L : Lib) (r : Reader) : Result :=
  match L.gzipNewReader r with
  | .error err => .panics err
  | .ok gzr => .returns (Parse L gzr)

/-- Go: `func ZipParse(path string) Feedback`. -/
def ZipParse (L : Lib) (path : String) : Result :=
  match L.zipOpenReader path with
  | .error err => .panics err
  | .ok zr =>
    match zr with
    | [] => .indexOutOfRange 0 0
    | f :: _ =>
      match f.Open with
      | .error err => .panics err
      | .ok fh => .returns (Parse L fh)

/-! ## Documents -/

/-- A node of an XML document: an element with its attributes and children, or
character data, a comment, a processing instruction, a directive. -/
inductive Node where
  | element (name : Name) (attr : List Attr) (children : List Node)
  | text (data : String)
  | comment (data : String)
  | procInst (target : String) (inst : String)
  | directive (data : String)
  deriving Repr

/-- Whether the node is an element. -/
def Node.isElement : Node → Bool
  | .element _ _ _ => true
  | _ => false

mutual
/-- The items the tokenizer produces for a node. -/
def Node.tokens : Node → List Raw
  | .element n a cs => .tok (.StartElement n a) :: (tokens cs ++ [.tok (.EndElement n)])
  | .text s => [.tok (.CharData s)]
  | .comment s => [.tok (.Comment s)]
  | .procInst t i => [.tok (.ProcInst t i)]
  | .directive s => [.tok (.Directive s)]
/-- The items the tokenizer produces for a sequence of nodes. -/
def tokens : List Node → List Raw
  | [] => []
  | c :: rest => c.tokens ++ tokens rest
end

mutual
/-- What `unmarshal` does with one child node of the element it decodes: the
value and character data after the child, and the error if decoding stops. -/
def unmarshalNode (pf : String → Except Error Float32) (k : Kind) (v : Val) (data : String) :
    Node → Val × String × Option Error
  | .element n _ cs =>
    match k.field? n.Local with
    | some (i, f) =>
      if f.repeated then
        match unmarshalNodes pf f.kind f.kind.zero "" cs with
        | (x, none) => (v.setField i ((v.field i).push x), data, none)
        | (_, some e) => (v, data, some e)
      else
        match unmarshalNodes pf f.kind (v.field i) "" cs with
        | (x, err) => (v.setField i x, data, err)
    | none => (v, data, none)
  | .text s => (v, if k.savesData then data ++ s else data, none)
  | _ => (v, data, none)
/-- What `unmarshal` does with the children of the element it decodes, up to the
end tag: the tree form of `unmarshal`, equal to it on the tokens of the
children (`unmarshal_nodes`). -/
def unmarshalNodes (pf : String → Except Error Float32) (k : Kind) (v : Val) (data : String) :
    List Node → Val × Option Error
  | [] =>
    match copyValue pf k v data with
    | .ok v1 => (v1, none)
    | .error e => (v, some e)
  | c :: rest =>
    match unmarshalNode pf k v data c with
    | (v1, data1, none) => unmarshalNodes pf k v1 data1 rest
    | (v1, _, some e) => (v1, some e)
end

/-- A well-formed XML document: what precedes the root element (declaration,
comments, white space: no element), the root element, and what follows it.
Names and attributes are as written. -/
structure Document where
  prolog : List Node
  name : Name
  attr : List Attr
  children : List Node
  epilog : List Node

/-- The root element of a document. -/
def Document.root (d : Document) : Node :=
  .element d.name d.attr d.children

/-- The name of the root element as `Decoder.Token` reports it: translated
under the name space declarations of the root element itself. -/
def Document.rootName (d : Document) : Name :=
  translate (Decoder.declare d.attr [] (fun _ => none)).2 d.name true

/-- The items the tokenizer produces for a document. -/
def Document.tokens (d : Document) : List Raw :=
  Dmarc.tokens d.prolog ++ (d.root.tokens ++ Dmarc.tokens d.epilog)

/-- Only the root element is an element at top level. -/
def Document.WellFormed (d : Document) : Prop :=
  (∀ c ∈ d.prolog, c.isElement = false) ∧ (∀ c ∈ d.epilog, c.isElement = false)

/-- The tokenizer reads the bytes of `r` as the document `d`. -/
def Reads (L : Lib) (r : Reader) (d : Document) : Prop :=
  d.WellFormed ∧ L.rawTokens r = d.tokens

/-- The kind that decodes the children of a child element named `n`, under an
element decoded at kind `c`; `none` stands for an element that is skipped, and
below a skipped element or a scalar everything is skipped. -/
def childKind (c : Option Kind) (n : String) : Option Kind :=
  match c with
  | some k => (k.field? n).map (fun p => p.2.kind)
  | none => none

/-- `Inserted m b xs c cs cs1`: the children `cs1` are the children `cs` of an
element decoded at `c`, with one element named `m` (attributes `b`, children
`xs`) inserted somewhere below, at a place where the name `m` matches no field
of its parent in the data model. -/
inductive Inserted (m : Name) (b : List Attr) (xs : List Node) :
    Option Kind → List Node → List Node → Prop where
  | here (c : Option Kind) (before after : List Node) :
    childKind c m.Local = none →
    Inserted m b xs c (before ++ after) (before ++ Node.element m b xs :: after)
  | inside (c : Option Kind) (before after : List Node) (n : Name) (a : List Attr)
    (ks ks1 : List Node) :
    Inserted m b xs (childKind c n.Local) ks ks1 →
    Inserted m b xs c (before ++ Node.element n a ks :: after)
      (before ++ Node.element n a ks1 :: after)

/-! ## Reading a document by element name -/

/-- The contents of the child elements named `n`, in document order. -/
def elementsNamed (n : String) : List Node → List (List Node)
  | [] => []
  | .element m _ ks :: rest =>
    if m.Local = n then ks :: elementsNamed n rest else elementsNamed n rest
  | _ :: rest => elementsNamed n rest

/-- The character data directly inside an element. -/
def textOf : List Node → String
  | [] => ""
  | .text s :: rest => s ++ textOf rest
  | _ :: rest => textOf rest

/-- The decoding of one element, given by its content, into a fresh value of
the kind. -/
def decodeElement (pf : String → Except Error Float32) (k : Kind) (content : List Node) : Val :=
  (unmarshalNodes pf k k.zero "" content).1

/-- What a field holds after the elements of its name, given by their contents
in document order, have been decoded into it one after the other; `none` when
one of them fails. -/
def runField (pf : String → Except Error Float32) (f : Field) : Val → List (List Node) → Option Val
  | a, [] => some a
  | a, ks :: rest =>
    if f.repeated then
      match unmarshalNodes pf f.kind f.kind.zero "" ks with
      | (x, none) => runField pf f (a.push x) rest
      | (_, some _) => none
    else
      match unmarshalNodes pf f.kind a "" ks with
      | (x, none) => runField pf f x rest
      | (_, some _) => none

/-- The value is a struct with `n` fields. -/
def Val.IsStruct (n : Nat) (v : Val) : Prop :=
  ∃ vs, v = .struct vs ∧ vs.length = n

/-! ## Well-formed feedback documents, and the report read off a document -/

/-- The text is one `copyValue` accepts for the kind: for a number, nothing or a
numeral (with white space around it); for a string, any text. -/
def validText (pf : String → Except Error Float32) : Kind → String → Prop
  | .int, s => s = "" ∨ ∃ i, ParseInt (TrimSpace s) = .ok i
  | .float32, s => s = "" ∨ ∃ x, pf (TrimSpace s) = .ok x
  | _, _ => True

mutual
/-- A child node of an element decoded at kind `k` is valid: an element that has
a field holds valid children and, for a number, a numeral. -/
def validNode (pf : String → Except Error Float32) (k : Kind) : Node → Prop
  | .element n _ cs =>
    match k.field? n.Local with
    | some (_, f) => validNodes pf f.kind cs ∧ validText pf f.kind (textOf cs)
    | none => True
  | _ => True
/-- The children of an element decoded at kind `k` are valid: every element of
the data model that is a number holds a numeral (integer or decimal as its
field asks) or nothing. -/
def validNodes (pf : String → Except Error Float32) (k : Kind) : List Node → Prop
  | [] => True
  | c :: rest => validNode pf k c ∧ validNodes pf k rest
end

/-- A feedback document: the root element is named `feedback`, and every
element of the data model that is a number holds a numeral or nothing. -/
def Document.IsFeedback (pf : String → Except Error Float32) (d : Document) : Prop :=
  d.name.Local = "feedback" ∧ validNodes pf Feedback.kind d.children

/-- Whether a list is empty can be decided without comparing elements. -/
instance decidableEqNil {α : Type} (l : List α) : Decidable (l = []) :=
  match l with
  | [] => isTrue rfl
  | _ :: _ => isFalse (fun h => List.noConfusion h)

/-- The contents of the elements named `n` inside the elements whose contents
are `l`, in document order. -/
def under (n : String) (l : List (List Node)) : List (List Node) :=
  l.flatMap (elementsNamed n)

/-- The integer `copyValue` stores for a text: 0 for no text. -/
def intOf (s : String) : Int :=
  if s = "" then 0
  else
    match ParseInt (TrimSpace s) with
    | .ok i => i
    | .error _ => 0

/-- The float `copyValue` stores for a text: 0 for no text. -/
def floatOf (pf : String → Except Error Float32) (s : String) : Float32 :=
  if s = "" then ⟨0⟩
  else
    match pf (TrimSpace s) with
    | .ok x => x
    | .error _ => ⟨0⟩

/-- The text of the element of a string field: that of the last of the
elements given, empty when there is none. -/
def strAt (l : List (List Node)) : String :=
  match l.getLast? with
  | some ks => textOf ks
  | none => ""

/-- The number in the element of an integer field, 0 when there is none. -/
def intAt (l : List (List Node)) : Int :=
  match l.getLast? with
  | some ks => intOf (textOf ks)
  | none => 0

/-- The number in the element of a float field, 0 when there is none. -/
def floatAt (pf : String → Except Error Float32) (l : List (List Node)) : Float32 :=
  match l.getLast? with
  | some ks => floatOf pf (textOf ks)
  | none => ⟨0⟩

/-- The `DateRange` that `date_range` elements with contents `l` state. -/
def DateRange.read (l : List (List Node)) : DateRange :=
  ⟨intAt (under "begin" l), intAt (under "end" l)⟩

/-- The `Metadata` that `report_metadata` elements with contents `l` state. -/
def Metadata.read (l : List (List Node)) : Metadata :=
  ⟨strAt (under "org_name" l), strAt (under "email" l), strAt (under "extra_contact_info" l),
    strAt (under "report_id" l), DateRange.read (under "date_range" l),
    (under "error" l).map textOf⟩

/-- The `PolicyPublished` that `policy_published` elements with contents `l`
state. -/
def PolicyPublished.read (l : List (List Node)) : PolicyPublished :=
  ⟨strAt (under "domain" l), strAt (under "adkim" l), strAt (under "aspf" l),
    strAt (under "p" l), strAt (under "sp" l), intAt (under "pct" l), strAt (under "fo" l)⟩

/-- The `PolicyOverrideReason` that `reason` elements with contents `l` state. -/
def PolicyOverrideReason.read (l : List (List Node)) : PolicyOverrideReason :=
  ⟨strAt (under "type" l), strAt (under "comment" l)⟩

/-- The `PolicyEvaluated` that `policy_evaluated` elements with contents `l`
state: one reason for every `reason` element. -/
def PolicyEvaluated.read (l : List (List Node)) : PolicyEvaluated :=
  ⟨strAt (under "disposition" l), strAt (under "dkim" l), strAt (under "spf" l),
    (under "reason" l).map (fun c => PolicyOverrideReason.read [c])⟩

/-- The `Row` that `row` elements with contents `l` state. -/
def Row.read (l : List (List Node)) : Row :=
  ⟨strAt (under "source_ip" l), intAt (under "count" l),
    PolicyEvaluated.read (under "policy_evaluated" l)⟩

/-- The `Identifier` that `identifiers` elements with contents `l` give by the
struct tags of `Identifier` in `xml.go`: `MailFrom` is read from the element
`mail_from`, the tag of the field, not from the element `envelope_from` of the
schema quoted above the struct (for the schema see `Identifier.readSchema`). -/
def Identifier.read (l : List (List Node)) : Identifier :=
  ⟨strAt (under "envelope_to" l), strAt (under "mail_from" l), strAt (under "header_from" l)⟩

/-- The `Identifier` that `identifiers` elements with contents `l` state by the
schema `IdentifierType` of RFC 7489 quoted in `xml.go`: the elements
`envelope_to`, `envelope_from`, `header_from`, the envelope sender being
`envelope_from`. -/
def Identifier.readSchema (l : List (List Node)) : Identifier :=
  ⟨strAt (under "envelope_to" l), strAt (under "envelope_from" l),
    strAt (under "header_from" l)⟩

/-- The `DKIMAuthResult` that `dkim` elements with contents `l` state. -/
def DKIMAuthResult.read (l : List (List Node)) : DKIMAuthResult :=
  ⟨strAt (under "domain" l), strAt (under "selector" l), strAt (under "result" l),
    strAt (under "human_result" l)⟩

/-- The `SPFAuthResult` that `spf` elements with contents `l` state. -/
def SPFAuthResult.read (l : List (List Node)) : SPFAuthResult :=
  ⟨strAt (under "domain" l), strAt (under "scope" l), strAt (under "result" l)⟩

/-- The `AuthResult` that `auth_results` elements with contents `l` state: one
result for every `dkim` and every `spf` element. -/
def AuthResult.read (l : List (List Node)) : AuthResult :=
  ⟨(under "dkim" l).map (fun c => DKIMAuthResult.read [c]),
    (under "spf" l).map (fun c => SPFAuthResult.read [c])⟩

/-- The `Record` that `record` elements with contents `l` give by the struct
tags. -/
def Record.read (l : List (List Node)) : Record :=
  ⟨Row.read (under "row" l), Identifier.read (under "identifiers" l),
    AuthResult.read (under "auth_results" l)⟩

/-- The `Record` that `record` elements with contents `l` state by the schema:
as `Record.read`, with the identifiers read by `Identifier.readSchema`. -/
def Record.readSchema (l : List (List Node)) : Record :=
  ⟨Row.read (under "row" l), Identifier.readSchema (under "identifiers" l),
    AuthResult.read (under "auth_results" l)⟩

/-- The report read off a document by element name, with the element names of
the struct tags of `xml.go`: every field holds the text (for a number, the value
of the numeral) of the element that bears the name of its tag within the
parent's element, the repeated elements `record`, `error`, `reason`, `dkim`,
`spf` give sequences in document order, and a field whose element is absent is
zero.  (Were an element that is not repeated written twice, the last one counts,
field by field.)  The tags are the element names of the schema quoted in
`xml.go` but for `MailFrom`, whose tag is `mail_from`. -/
def Feedback.read (pf : String → Except Error Float32) (d : Document) : Feedback :=
  ⟨d.rootName, floatAt pf (elementsNamed "version" d.children),
    Metadata.read (elementsNamed "report_metadata" d.children),
    PolicyPublished.read (elementsNamed "policy_published" d.children),
    (elementsNamed "record" d.children).map (fun c => Record.read [c])⟩

/-- The report a document states by the schema of RFC 7489 quoted in `xml.go`,
as the specification words it: every field holds the text of the schema element
of the field, so the envelope sender `MailFrom` that of `envelope_from`. -/
def Feedback.readSchema (pf : String → Except Error Float32) (d : Document) : Feedback :=
  ⟨d.rootName, floatAt pf (elementsNamed "version" d.children),
    Metadata.read (elementsNamed "report_metadata" d.children),
    PolicyPublished.read (elementsNamed "policy_published" d.children),
    (elementsNamed "record" d.children).map (fun c => Record.readSchema [c])⟩

/-! ## Example reports -/

/-- An element without name space and attributes. -/
def elem (n : String) (children : List Node) : Node :=
  .element ⟨"", n⟩ [] children

/-- A stand-in for `strconv.ParseFloat(s, 32)` that knows the numeral `1.0`. -/
def exampleParseFloat32 (s : String) : Except Error Float32 :=
  if s = "1.0" then .ok ⟨0x3F800000⟩ else .error (.NumError "ParseFloat" s .ErrSyntax)

/-- A report with one record and every field set. -/
def sampleReport : Feedback :=
  { XMLName := ⟨"", "feedback"⟩
    Version := ⟨0x3F800000⟩
    Metadata := ⟨"Example Org", "postmaster@example.org", "https://example.org/dmarc", "12345",
      ⟨1000, 2000⟩, ["partial data"]⟩
    Policy := ⟨"example.com", "r", "s", "none", "reject", 100, "1"⟩
    Records := [
      { Row := ⟨"192.0.2.1", 2, ⟨"none", "pass", "fail", [⟨"forwarded", "via list"⟩]⟩⟩
        Identifier := ⟨"rcpt.example", "bounce.example.com", "example.com"⟩
        AuthResult := ⟨[⟨"example.com", "sel1", "pass", "ok"⟩],
          [⟨"example.com", "mfrom", "pass"⟩]⟩ }] }

/-- A document with every element of the data model, an XML declaration, white
space between the elements and a comment; `identifiers` holds both the element
`envelope_from` of the schema and the element `mail_from` of the struct tag. -/
def sampleDocument : Document :=
  { prolog := [.procInst "xml" "version=\"1.0\" encoding=\"UTF-8\"", .text "\n"]
    name := ⟨"", "feedback"⟩
    attr := []
    children := [
      .text "\n  ", elem "version" [.text "1.0"],
      .text "\n  ", elem "report_metadata" [
        .text "\n    ", elem "org_name" [.text "Example Org"],
        .text "\n    ", elem "email" [.text "postmaster@example.org"],
        .text "\n    ", elem "extra_contact_info" [.text "https://example.org/dmarc"],
        .text "\n    ", elem "report_id" [.text "12345"],
        .text "\n    ", elem "date_range" [elem "begin" [.text "1000"], elem "end" [.text "2000"]],
        .text "\n    ", elem "error" [.text "partial data"],
        .text "\n  "],
      .text "\n  ", elem "policy_published" [
        elem "domain" [.text "example.com"], elem "adkim" [.text "r"], elem "aspf" [.text "s"],
        elem "p" [.text "none"], elem "sp" [.text "reject"], elem "pct" [.text "100"],
        elem "fo" [.text "1"]],
      .text "\n  ", .comment " one record ",
      elem "record" [
        elem "row" [
          elem "source_ip" [.text "192.0.2.1"], elem "count" [.text "2"],
          elem "policy_evaluated" [
            elem "disposition" [.text "none"], elem "dkim" [.text "pass"],
            elem "spf" [.text "fail"],
            elem "reason" [elem "type" [.text "forwarded"], elem "comment" [.text "via list"]]]],
        elem "identifiers" [
          elem "envelope_to" [.text "rcpt.example"],
          elem "envelope_from" [.text "sender.example.net"],
          elem "mail_from" [.text "bounce.example.com"],
          elem "header_from" [.text "example.com"]],
        elem "auth_results" [
          elem "dkim" [elem "domain" [.text "example.com"], elem "selector" [.text "sel1"],
            elem "result" [.text "pass"], elem "human_result" [.text "ok"]],
          elem "spf" [elem "domain" [.text "example.com"], elem "scope" [.text "mfrom"],
            elem "result" [.text "pass"]]]],
      .text "\n"]
    epilog := [.text "\n"] }

/-- The report that `schemaDocument` states by the schema. -/
def schemaReport : Feedback :=
  { XMLName := ⟨"", "feedback"⟩
    Version := ⟨0x3F800000⟩
    Metadata := ⟨"Example Org", "postmaster@example.org", "https://example.org/dmarc", "12345",
      ⟨1000, 2000⟩, ["partial data"]⟩
    Policy := ⟨"example.com", "r", "s", "none", "reject", 100, "1"⟩
    Records := [
      { Row := ⟨"192.0.2.1", 2, ⟨"none", "pass", "fail", [⟨"forwarded", "via list"⟩]⟩⟩
        Identifier := ⟨"rcpt.example", "sender.example.net", "example.com"⟩
        AuthResult := ⟨[⟨"example.com", "sel1", "pass", "ok"⟩],
          [⟨"example.com", "mfrom", "pass"⟩]⟩ }] }

/-- A canonical report by the schema of RFC 7489: one record, every required and
optional element of the schema and no other, with white space between the
elements and around the number in `count`.  The envelope sender is in
`envelope_from`; there is no `mail_from`. -/
def schemaDocument : Document :=
  { prolog := [.procInst "xml" "version=\"1.0\" encoding=\"UTF-8\"", .text "\n"]
    name := ⟨"", "feedback"⟩
    attr := []
    children := [
      .text "\n  ", elem "version" [.text "1.0"],
      .text "\n  ", elem "report_metadata" [
        .text "\n    ", elem "org_name" [.text "Example Org"],
        .text "\n    ", elem "email" [.text "postmaster@example.org"],
        .text "\n    ", elem "extra_contact_info" [.text "https://example.org/dmarc"],
        .text "\n    ", elem "report_id" [.text "12345"],
        .text "\n    ", elem "date_range" [elem "begin" [.text "1000"], elem "end" [.text "2000"]],
        .text "\n    ", elem "error" [.text "partial data"],
        .text "\n  "],
      .text "\n  ", elem "policy_published" [
        elem "domain" [.text "example.com"], elem "adkim" [.text "r"], elem "aspf" [.text "s"],
        elem "p" [.text "none"], elem "sp" [.text "reject"], elem "pct" [.text "100"],
        elem "fo" [.text "1"]],
      .text "\n  ", elem "record" [
        elem "row" [
          elem "source_ip" [.text "192.0.2.1"], elem "count" [.text "\n        2\t"],
          elem "policy_evaluated" [
            elem "disposition" [.text "none"], elem "dkim" [.text "pass"],
            elem "spf" [.text "fail"],
            elem "reason" [elem "type" [.text "forwarded"], elem "comment" [.text "via list"]]]],
        elem "identifiers" [
          elem "envelope_to" [.text "rcpt.example"],
          elem "envelope_from" [.text "sender.example.net"],
          elem "header_from" [.text "example.com"]],
        elem "auth_results" [
          elem "dkim" [elem "domain" [.text "example.com"], elem "selector" [.text "sel1"],
            elem "result" [.text "pass"], elem "human_result" [.text "ok"]],
          elem "spf" [elem "domain" [.text "example.com"], elem "scope" [.text "mfrom"],
            elem "result" [.text "pass"]]]],
      .text "\n"]
    epilog := [.text "\n"] }

/-- The report `sampleReport` written without its optional elements, with white
space between the elements. -/
def sparseDocument : Document :=
  { prolog := [.procInst "xml" "version=\"1.0\"", .text "\n"]
    name := ⟨"", "feedback"⟩
    attr := []
    children := [
      .text "\n  ", elem "version" [.text "1.0"],
      .text "\n  ", elem "report_metadata" [
        elem "org_name" [.text "Example Org"],
        elem "email" [.text "postmaster@example.org"],
        elem "report_id" [.text "12345"],
        elem "date_range" [elem "begin" [.text "1000"], elem "end" [.text "2000"]],
        elem "error" [.text "partial data"]],
      .text "\n  ", elem "policy_published" [
        elem "domain" [.text "example.com"],
        elem "p" [.text "none"], elem "sp" [.text "reject"], elem "pct" [.text "100"],
        elem "fo" [.text "1"]],
      .text "\n  ", elem "record" [
        elem "row" [
          elem "source_ip" [.text "192.0.2.1"], elem "count" [.text "2"],
          elem "policy_evaluated" [
            elem "disposition" [.text "none"], elem "dkim" [.text "pass"],
            elem "spf" [.text "fail"],
            elem "reason" [elem "type" [.text "forwarded"]]]],
        elem "identifiers" [
          elem "envelope_to" [.text "rcpt.example"],
          elem "mail_from" [.text "bounce.example.com"],
          elem "header_from" [.text "example.com"]],
        elem "auth_results" [
          elem "dkim" [elem "domain" [.text "example.com"],
            elem "result" [.text "pass"], elem "human_result" [.text "ok"]],
          elem "spf" [elem "domain" [.text "example.com"], elem "scope" [.text "mfrom"],
            elem "result" [.text "pass"]]]],
      .text "\n"]
    epilog := [] }

/-- A report whose enumeration-typed fields hold text outside the enumerations
of the schema. -/
def bogusReport : Feedback :=
  { XMLName := ⟨"", "feedback"⟩
    Version := ⟨0x3F800000⟩
    Metadata := ⟨"Example Org", "postmaster@example.org", "", "12345", ⟨1000, 2000⟩, []⟩
    Policy := ⟨"example.com", "relaxed?", "STRICT", "monitor", " reject ", 100, ""⟩
    Records := [
      { Row := ⟨"192.0.2.1", 2, ⟨"drop", "maybe", "PASS", [⟨"because", ""⟩]⟩⟩
        Identifier := ⟨"", "", "example.com"⟩
        AuthResult := ⟨[⟨"example.com", "", "bogus_dkim", ""⟩],
          [⟨"example.com", "ehlo", "bogus_value"⟩]⟩ }] }

/-- A document whose enumeration-typed elements hold text outside the
enumerations of the schema; it states `bogusReport`. -/
def bogusDocument : Document :=
  { prolog := []
    name := ⟨"", "feedback"⟩
    attr := []
    children := [
      elem "version" [.text "1.0"],
      elem "report_metadata" [
        elem "org_name" [.text "Example Org"],
        elem "email" [.text "postmaster@example.org"],
        elem "report_id" [.text "12345"],
        elem "date_range" [elem "begin" [.text "1000"], elem "end" [.text "2000"]]],
      elem "policy_published" [
        elem "domain" [.text "example.com"], elem "adkim" [.text "relaxed?"],
        elem "aspf" [.text "STRICT"], elem "p" [.text "monitor"], elem "sp" [.text " reject "],
        elem "pct" [.text "100"]],
      elem "record" [
        elem "row" [
          elem "source_ip" [.text "192.0.2.1"], elem "count" [.text "2"],
          elem "policy_evaluated" [
            elem "disposition" [.text "drop"], elem "dkim" [.text "maybe"],
            elem "spf" [.text "PASS"],
            elem "reason" [elem "type" [.text "because"]]]],
        elem "identifiers" [elem "header_from" [.text "example.com"]],
        elem "auth_results" [
          elem "dkim" [elem "domain" [.text "example.com"], elem "result" [.text "bogus_dkim"]],
          elem "spf" [elem "domain" [.text "example.com"], elem "scope" [.text "ehlo"],
            elem "result" [.text "bogus_value"]]]]]
    epilog := [] }

/-- The enumeration-typed fields of a report, in document order: `Alignment`,
`Disposition`, `DMARCResult`, `PolicyOverrideType`, `DKIMResult`,
`SPFDomainScope`, `SPFResult`. -/
def Feedback.enumTexts (x : Feedback) : List String :=
  [x.Policy.Adkim, x.Policy.Aspf, x.Policy.P, x.Policy.Sp] ++
    x.Records.flatMap (fun r =>
      [r.Row.PolicyEvaluated.Disposition, r.Row.PolicyEvaluated.Dkim,
        r.Row.PolicyEvaluated.Spf] ++
      r.Row.PolicyEvaluated.OverrideReasons.map (fun o => o.Typ) ++
      r.AuthResult.Dkim.map (fun k => k.Result) ++
      r.AuthResult.Spf.flatMap (fun s => [s.Scope, s.Result]))

/-- A document with two `error` elements and three `record` elements. -/
def threeRecordsDocument : Document :=
  { prolog := []
    name := ⟨"", "feedback"⟩
    attr := []
    children := [
      elem "report_metadata" [
        elem "org_name" [.text "Example Org"],
        elem "error" [.text "first"],
        .text "\n",
        elem "error" [.text "second"]],
      elem "record" [
        elem "row" [elem "source_ip" [.text "192.0.2.1"], elem "count" [.text "1"],
          elem "policy_evaluated" [
            elem "reason" [elem "type" [.text "forwarded"]],
            elem "reason" [elem "type" [.text "mailing_list"]]]],
        elem "auth_results" [
          elem "dkim" [elem "domain" [.text "a.example"]],
          elem "dkim" [elem "domain" [.text "b.example"]],
          elem "spf" [elem "domain" [.text "c.example"]]]],
      .text "\n",
      elem "record" [elem "row" [elem "source_ip" [.text "192.0.2.2"], elem "count" [.text "2"]]],
      elem "record" [elem "row" [elem "source_ip" [.text "192.0.2.3"], elem "count" [.text "3"]]]]
    epilog := [] }

/-- A small document. -/
def smallDocument : Document :=
  { prolog := []
    name := ⟨"", "feedback"⟩
    attr := []
    children := [
      elem "report_metadata" [elem "org_name" [.text "Example Org"]],
      elem "record" [
        elem "row" [elem "source_ip" [.text "192.0.2.1"], elem "count" [.text "7"]],
        elem "identifiers" [elem "header_from" [.text "example.com"]]]]
    epilog := [] }

/-- The children of `smallDocument` with an element `ext:extension`, unknown to
`Row`, inserted in the `row` of the record; it binds its prefix itself. -/
def smallDocumentExtended : List Node :=
  [ elem "report_metadata" [elem "org_name" [.text "Example Org"]],
    elem "record" [
      elem "row" [elem "source_ip" [.text "192.0.2.1"],
        .element ⟨"ext", "extension"⟩ [⟨⟨"xmlns", "ext"⟩, "urn:example"⟩, ⟨⟨"", "id"⟩, "7"⟩]
          [elem "count" [.text "not a number"], .text "x"],
        elem "count" [.text "7"]],
      elem "identifiers" [elem "header_from" [.text "example.com"]]]]

/-- Malformed input: the bytes stop being XML after the organisation name. -/
def brokenBytes : List Raw :=
  [.tok (.StartElement ⟨"", "feedback"⟩ []), .tok (.StartElement ⟨"", "report_metadata"⟩ []),
    .tok (.StartElement ⟨"", "org_name"⟩ []), .tok (.CharData "Example Org"),
    .tok (.EndElement ⟨"", "org_name"⟩),
    .fail (.SyntaxError "expected element name after <")]

/-- Malformed input: the element `email` is closed by the tag `report_id`. -/
def mismatchedTags : List Raw :=
  [.tok (.StartElement ⟨"", "feedback"⟩ []), .tok (.StartElement ⟨"", "report_metadata"⟩ []),
    .tok (.StartElement ⟨"", "org_name"⟩ []), .tok (.CharData "Example Org"),
    .tok (.EndElement ⟨"", "org_name"⟩),
    .tok (.StartElement ⟨"", "email"⟩ []), .tok (.CharData "postmaster@example.org"),
    .tok (.EndElement ⟨"", "report_id"⟩),
    .tok (.EndElement ⟨"", "report_metadata"⟩), .tok (.EndElement ⟨"", "feedback"⟩)]

/-- Malformed input: the text of `count` is no number. -/
def badCountDocument : Document :=
  { prolog := []
    name := ⟨"", "feedback"⟩
    attr := []
    children := [
      elem "report_metadata" [elem "org_name" [.text "Example Org"],
        elem "report_id" [.text "12345"]],
      elem "record" [
        elem "row" [elem "source_ip" [.text "192.0.2.1"], elem "count" [.text "many"]]],
      elem "policy_published" [elem "domain" [.text "example.com"]]]
    epilog := [] }

/-- A report as RFC 7489 has it: `identifiers` holds the element `envelope_from`
of the schema quoted in `xml.go`. -/
def rfcDocument : Document :=
  { prolog := []
    name := ⟨"", "feedback"⟩
    attr := []
    children := [
      elem "record" [
        elem "identifiers" [
          elem "envelope_to" [.text "rcpt.example"],
          elem "envelope_from" [.text "sender.example.net"],
          elem "header_from" [.text "example.com"]]]]
    epilog := [] }

/-- A reader with one byte; the stand-in tokenizer knows the examples by it. -/
def reader (n : UInt8) : Reader := ⟨[n], none⟩

/-- A stand-in for the libraries: the tokenizer knows the example inputs by
their first byte, the gzip reader takes the two magic bytes off a stream, and the
file system holds three archives. -/
def exampleLib : Lib where
  rawTokens r :=
    match r.bytes with
    | [1] => sampleDocument.tokens
    | [2] => sparseDocument.tokens
    | [3] => bogusDocument.tokens
    | [4] => threeRecordsDocument.tokens
    | [5] => smallDocument.tokens
    | [6] => { smallDocument with children := smallDocumentExtended }.tokens
    | [7] => brokenBytes
    | [8] => mismatchedTags
    | [9] => badCountDocument.tokens
    | [10] => rfcDocument.tokens
    | [11] => schemaDocument.tokens
    | _ => []
  ParseFloat32 := exampleParseFloat32
  gzipNewReader r :=
    match r.bytes with
    | 0x1f :: 0x8b :: rest => .ok ⟨rest, r.fails⟩
    | _ => .error (.other "gzip: invalid header")
  zipOpenReader path :=
    if path = "empty.zip" then .ok []
    else if path = "one.zip" then .ok [⟨"report.xml", .ok (reader 1)⟩]
    else if path = "two.zip" then
      .ok [⟨"first.xml", .ok (reader 5)⟩, ⟨"second.xml", .ok (reader 1)⟩]
    else .error (.other "open: no such file or directory")

/-! # Theorems -/

/-! ## Numerals -/

theorem digitChar_spec : ∀ d, d < 10 →
    isDigit (digitChar d) = true ∧ (digitChar d).toNat - '0'.toNat = d := by
  decide

theorem isDigit_not_space (c : Char) (h : isDigit c = true) : isSpace c = false := by
  have h1 : 48 ≤ c.toNat ∧ c.toNat ≤ 57 := by
    simp only [isDigit, decide_eq_true_eq] at h
    exact h
  have hne : ∀ ch : Char, (ch.toNat < 48 ∨ 57 < ch.toNat) → ¬ c = ch := by
    rintro ch hch rfl
    omega
  simp only [isSpace, Bool.or_eq_false_iff, Bool.and_eq_false_iff, decide_eq_false_iff_not]
  refine ⟨⟨⟨⟨⟨⟨⟨⟨⟨⟨⟨⟨⟨⟨?_, ?_⟩, ?_⟩, ?_⟩, ?_⟩, ?_⟩, ?_⟩, ?_⟩, ?_⟩, ?_⟩, ?_⟩, ?_⟩, ?_⟩, ?_⟩, ?_⟩ <;>
    first
    | (apply hne; decide)
    | omega

theorem decimalDigits_digits (fuel n : Nat) (acc : List Char)
    (hacc : ∀ c ∈ acc, isDigit c = true) : ∀ c ∈ decimalDigits fuel n acc, isDigit c = true := by
  induction fuel generalizing n acc with
  | zero => simpa [decimalDigits] using hacc
  | succ fuel ih =>
    unfold decimalDigits
    split
    · intro c hc
      rcases List.mem_cons.1 hc with rfl | hc
      · exact (digitChar_spec n (by omega)).1
      · exact hacc c hc
    · apply ih
      intro c hc
      rcases List.mem_cons.1 hc with rfl | hc
      · exact (digitChar_spec (n % 10) (Nat.mod_lt _ (by decide))).1
      · exact hacc c hc

theorem decimalDigits_ne_nil (fuel n : Nat) (acc : List Char) (h : 0 < fuel ∨ acc ≠ []) :
    decimalDigits fuel n acc ≠ [] := by
  induction fuel generalizing n acc with
  | zero => simpa [decimalDigits] using h
  | succ fuel ih =>
    unfold decimalDigits
    split
    · simp
    · exact ih _ _ (Or.inr (by simp))

theorem parseUintLoop_decimalDigits (fuel n : Nat) (acc : List Char) (hf : n < fuel)
    (hn : n < 2 ^ 64) :
    parseUintLoop (decimalDigits fuel n acc) 0 = parseUintLoop acc n := by
  induction fuel generalizing n acc with
  | zero => omega
  | succ fuel ih =>
    unfold decimalDigits
    split
    · rename_i h10
      have hd := digitChar_spec n h10
      simp only [isDigit, decide_eq_true_eq] at hd
      simp only [parseUintLoop, hd.1, hd.2]
      have h2 : n % 2 ^ 64 = n := Nat.mod_eq_of_lt hn
      have h3 : ¬ ((2 ^ 64 - 1) / 10 + 1 ≤ 0) := by omega
      have h4 : ¬ (n < 0 ∨ n > 2 ^ 64 - 1) := by omega
      simp only [ge_iff_le, Nat.zero_mul, Nat.zero_mod, Nat.zero_add, h2, h3, h4, and_self,
        if_true, if_false]
    · rename_i h10
      have hd := digitChar_spec (n % 10) (Nat.mod_lt _ (by decide))
      simp only [isDigit, decide_eq_true_eq] at hd
      rw [ih (n / 10) _ (by omega) (by omega)]
      simp only [parseUintLoop, hd.1, hd.2]
      have h1 : ¬ (n / 10 ≥ (2 ^ 64 - 1) / 10 + 1) := by omega
      have h2 : (n / 10 * 10 % 2 ^ 64 + n % 10) % 2 ^ 64 = n := by omega
      have h3 : n / 10 * 10 % 2 ^ 64 ≤ n := by omega
      have h4 : ¬ (n < n / 10 * 10 % 2 ^ 64 ∨ n > 2 ^ 64 - 1) := by omega
      simp only [h1, h2, h4, if_false, and_self, if_true]

/-- `ParseInt` reads the decimal numeral of every integer in the range of `int`
as that integer. -/
theorem ParseInt_decimal (i : Int) (hlo : -2 ^ 63 ≤ i) (hhi : i < 2 ^ 63) :
    ParseInt (decimal i) = .ok i := by
  unfold decimal
  by_cases hneg : i < 0
  · simp only [hneg, if_true, ParseInt]
    have hne := decimalDigits_ne_nil (i.natAbs + 1) i.natAbs [] (Or.inl (by omega))
    have hp := parseUintLoop_decimalDigits (i.natAbs + 1) i.natAbs [] (by omega) (by omega)
    simp only [parseUintLoop] at hp
    cases hfb : decimalDigits (i.natAbs + 1) i.natAbs [] with
    | nil => exact absurd hfb hne
    | cons c cs =>
      rw [hfb] at hp
      have h5 : ¬ ((i.natAbs : Nat) > 2 ^ (intSize - 1)) := by
        simp only [intSize]; omega
      simp only [ParseUint, or_true, if_true, hp, not_true_eq_false, false_and, if_false,
        true_and, h5]
      congr 1
      omega
  · simp only [hneg, if_false, ParseInt]
    have hne := decimalDigits_ne_nil (i.natAbs + 1) i.natAbs [] (Or.inl (by omega))
    have hp := parseUintLoop_decimalDigits (i.natAbs + 1) i.natAbs [] (by omega) (by omega)
    have hdig := decimalDigits_digits (i.natAbs + 1) i.natAbs [] (by simp)
    simp only [parseUintLoop] at hp
    cases hfb : decimalDigits (i.natAbs + 1) i.natAbs [] with
    | nil => exact absurd hfb hne
    | cons c cs =>
      rw [hfb] at hp hdig
      have hc := isDigit_not_space c (hdig c (by simp))
      have hc1 : c ≠ '+' := by
        rintro rfl
        have := hdig '+' (by simp)
        exact absurd this (by decide)
      have hc2 : c ≠ '-' := by
        rintro rfl
        have := hdig '-' (by simp)
        exact absurd this (by decide)
      simp only [hc1, hc2, or_self, if_false, ParseUint]
      rw [hp]
      have h5 : ¬ ((i.natAbs : Nat) ≥ 2 ^ (intSize - 1)) := by
        simp only [intSize]; omega
      simp [h5]
      omega

theorem dropWhile_isSpace_id (l : List Char) (h : ∀ c ∈ l, isSpace c = false) :
    l.dropWhile isSpace = l := by
  cases l with
  | nil => rfl
  | cons c cs => simp [List.dropWhile, h c (by simp)]

theorem TrimSpace_id (s : String) (h : ∀ c ∈ s.data, isSpace c = false) : TrimSpace s = s := by
  unfold TrimSpace
  rw [dropWhile_isSpace_id _ h, dropWhile_isSpace_id _ (by simpa using h), List.reverse_reverse]

theorem decimal_chars (i : Int) : ∀ c ∈ (decimal i).data, isSpace c = false := by
  have hd := decimalDigits_digits (i.natAbs + 1) i.natAbs [] (by simp)
  unfold decimal
  split
  · intro c hc
    rcases List.mem_cons.1 hc with rfl | hc
    · decide
    · exact isDigit_not_space c (hd c hc)
  · intro c hc
    exact isDigit_not_space c (hd c hc)

theorem decimal_ne_empty (i : Int) : decimal i ≠ "" := by
  have hne := decimalDigits_ne_nil (i.natAbs + 1) i.natAbs [] (Or.inl (by omega))
  unfold decimal
  split
  · intro h
    have := congrArg String.data h
    simp at this
  · intro h
    have := congrArg String.data h
    exact hne (by simpa using this)

theorem isSpace_of_isWhitespace (c : Char) (h : c.isWhitespace = true) : isSpace c = true := by
  simp only [Char.isWhitespace, Bool.or_eq_true, decide_eq_true_eq] at h
  rcases h with ((h | h) | h) | h <;> subst h <;> decide

theorem dropWhile_append_all (p : Char → Bool) (l1 l2 : List Char)
    (h : ∀ c ∈ l1, p c = true) : (l1 ++ l2).dropWhile p = l2.dropWhile p := by
  induction l1 with
  | nil => rfl
  | cons c l1 ih =>
    have hc := h c (by simp)
    simp only [List.cons_append, List.dropWhile, hc]
    exact ih (fun x hx => h x (by simp [hx]))

/-- White space around a text without white space is trimmed away. -/
theorem TrimSpace_padded (pad1 s pad2 : String)
    (hp : ∀ c ∈ pad1.data ++ pad2.data, isSpace c = true)
    (hs : ∀ c ∈ s.data, isSpace c = false) : TrimSpace (pad1 ++ s ++ pad2) = s := by
  unfold TrimSpace
  have h1 : (pad1 ++ s ++ pad2).data = pad1.data ++ (s.data ++ pad2.data) := by simp
  rw [h1, dropWhile_append_all isSpace _ _ (fun c hc => hp c (by simp [hc]))]
  cases hd : s.data with
  | nil =>
    have he : s = "" := String.ext (by simpa using hd)
    subst he
    simp only [List.nil_append]
    have h2 := dropWhile_append_all isSpace pad2.data [] (fun c hc => hp c (by simp [hc]))
    simp only [List.append_nil, List.dropWhile_nil] at h2
    rw [h2]
    rfl
  | cons c cs =>
    have hc : isSpace c = false := hs c (by simp [hd])
    have h3 : (c :: cs ++ pad2.data).dropWhile isSpace = c :: cs ++ pad2.data := by
      simp [List.dropWhile, hc]
    rw [h3]
    have h4 : (c :: cs ++ pad2.data).reverse = pad2.data.reverse ++ (c :: cs).reverse := by
      simp
    rw [h4, dropWhile_append_all isSpace _ _ (fun x hx => hp x (by simp at hx; simp [hx])),
      dropWhile_isSpace_id _ (fun x hx => hs x (by rw [hd]; exact List.mem_reverse.1 hx)),
      List.reverse_reverse]
    exact String.ext (by simp [hd])

/-- The number `copyValue` stores for the decimal numeral of an integer in the
range of `int`, with white space around it, is that integer. -/
theorem intOf_decimal (i : Int) (pad1 pad2 : String) (hlo : -2 ^ 63 ≤ i) (hhi : i < 2 ^ 63)
    (hp : ∀ c ∈ pad1.data ++ pad2.data, c.isWhitespace = true) :
    intOf (pad1 ++ decimal i ++ pad2) = i := by
  have hne : pad1 ++ decimal i ++ pad2 ≠ "" := by
    intro h
    have h1 := congrArg String.data h
    simp only [String.data_append] at h1
    have h2 : (decimal i).data = [] := by
      cases hd : (decimal i).data with
      | nil => rfl
      | cons c cs =>
        rw [hd] at h1
        simp at h1
    exact decimal_ne_empty i (String.ext h2)
  unfold intOf
  rw [if_neg hne, TrimSpace_padded pad1 (decimal i) pad2
    (fun c hc => isSpace_of_isWhitespace c (hp c hc)) (decimal_chars i),
    ParseInt_decimal i hlo hhi]

/-! ## Tokens and trees -/

theorem tokens_append (xs ys : List Node) : tokens (xs ++ ys) = tokens xs ++ tokens ys := by
  induction xs with
  | nil => simp [tokens]
  | cons x xs ih => simp [tokens, ih]

theorem NsMap.set_restore (ns : NsMap) (p v : String) :
    (if (ns p).isSome = true then (ns.set p v).set p ((ns p).getD "")
      else (ns.set p v).delete p) = ns := by
  funext x
  cases h : ns p with
  | none =>
    simp only [Option.isSome_none, Bool.false_eq_true, if_false, NsMap.delete, NsMap.set]
    by_cases hx : x = p
    · simp [hx, h]
    · simp [hx]
  | some u =>
    simp only [Option.isSome_some, if_true, NsMap.set, Option.getD_some]
    by_cases hx : x = p
    · simp [hx, h]
    · simp [hx]

theorem unwind_ns (p url : String) (ok : Bool) (rest : List Entry) (ns : NsMap) :
    Decoder.unwind (.ns p url ok :: rest) ns =
      Decoder.unwind rest (if ok then ns.set p url else ns.delete p) := by
  rw [Decoder.unwind]

theorem unwind_noPending (stk : List Entry) (ns : NsMap) (h : NoPending stk) :
    Decoder.unwind stk ns = (stk, ns) := by
  cases stk with
  | nil => rfl
  | cons e rest =>
    cases e with
    | start n => rfl
    | ns p url ok => exact absurd h (by simp [NoPending])

theorem declare_cons_bound (x : Attr) (rest : List Attr) (stk : List Entry) (ns : NsMap)
    (h : x.Name.Space = "xmlns") :
    Decoder.declare (x :: rest) stk ns =
      Decoder.declare rest
        (.ns x.Name.Local ((ns x.Name.Local).getD "") (ns x.Name.Local).isSome :: stk)
        (ns.set x.Name.Local x.Value) := by
  have h2 : ¬ (x.Name.Space = "" ∧ x.Name.Local = "xmlns") := by
    intro h3
    rw [h] at h3
    exact absurd h3.1 (by decide)
  rw [Decoder.declare]
  simp only [if_pos h, if_neg h2]

theorem declare_cons_default (x : Attr) (rest : List Attr) (stk : List Entry) (ns : NsMap)
    (h : x.Name.Space = "" ∧ x.Name.Local = "xmlns") :
    Decoder.declare (x :: rest) stk ns =
      Decoder.declare rest (.ns "" ((ns "").getD "") (ns "").isSome :: stk)
        (ns.set "" x.Value) := by
  have h1 : ¬ x.Name.Space = "xmlns" := by
    rw [h.1]
    decide
  rw [Decoder.declare]
  simp only [if_neg h1, if_pos h]

theorem declare_cons_other (x : Attr) (rest : List Attr) (stk : List Entry) (ns : NsMap)
    (h1 : ¬ x.Name.Space = "xmlns") (h2 : ¬ (x.Name.Space = "" ∧ x.Name.Local = "xmlns")) :
    Decoder.declare (x :: rest) stk ns = Decoder.declare rest stk ns := by
  rw [Decoder.declare]
  simp only [if_neg h1, if_neg h2]

/-- The bindings a start tag declares are undone when its element ends. -/
theorem unwind_declare (a : List Attr) :
    ∀ (stk : List Entry) (ns : NsMap),
      Decoder.unwind (Decoder.declare a stk ns).1 (Decoder.declare a stk ns).2 =
        Decoder.unwind stk ns := by
  induction a with
  | nil => intro stk ns; rfl
  | cons x rest ih =>
    intro stk ns
    by_cases h1 : x.Name.Space = "xmlns"
    · rw [declare_cons_bound x rest stk ns h1, ih, unwind_ns]
      have := NsMap.set_restore ns x.Name.Local x.Value
      rw [this]
    · by_cases h2 : x.Name.Space = "" ∧ x.Name.Local = "xmlns"
      · rw [declare_cons_default x rest stk ns h2, ih, unwind_ns]
        have := NsMap.set_restore ns "" x.Value
        rw [this]
      · rw [declare_cons_other x rest stk ns h1 h2]
        exact ih stk ns

theorem translate_Local (ns : NsMap) (n : Name) (b : Bool) : (translate ns n b).Local = n.Local := by
  unfold translate
  split
  · rfl
  · split
    · rfl
    · split
      · split <;> rfl
      · split
        · rfl
        · split
          · rfl
          · split <;> rfl

theorem step_start (n : Name) (a : List Attr) (stk : List Entry) (ns : NsMap) :
    Decoder.step (.tok (.StartElement n a)) stk ns =
      .ok (.StartElement (translate (Decoder.declare a stk ns).2 n true)
        (a.map (fun x => ⟨translate (Decoder.declare a stk ns).2 x.Name false, x.Value⟩)),
        .start n :: (Decoder.declare a stk ns).1, (Decoder.declare a stk ns).2) := by
  rfl

theorem step_end (n : Name) (stk : List Entry) (ns : NsMap) :
    Decoder.step (.tok (.EndElement n)) (.start n :: stk) ns =
      .ok (.EndElement (translate ns n true), (Decoder.unwind stk ns).1,
        (Decoder.unwind stk ns).2) := by
  simp [Decoder.step]

theorem Node.tokens_length_pos (c : Node) : 0 < c.tokens.length := by
  cases c <;> simp [Node.tokens]

theorem tokens_element_append (n : Name) (a : List Attr) (cs : List Node)
    (more : List Raw) :
    (Node.element n a cs).tokens ++ more =
      .tok (.StartElement n a) :: (tokens cs ++ .tok (.EndElement n) :: more) := by
  simp [Node.tokens]

theorem skipLoop_cons (r : Raw) (rest : List Raw) (stk : List Entry) (ns : NsMap)
    (depth : Nat) :
    Decoder.skipLoop (r :: rest) stk ns depth =
      match Decoder.step r stk ns with
      | .error e => .error e
      | .ok (.StartElement _ _, stk1, ns1) => Decoder.skipLoop rest stk1 ns1 (depth + 1)
      | .ok (.EndElement _, stk1, ns1) =>
        if depth = 0 then .ok ⟨rest, stk1, ns1⟩
        else Decoder.skipLoop rest stk1 ns1 (depth - 1)
      | .ok (_, stk1, ns1) => Decoder.skipLoop rest stk1 ns1 depth := by
  rw [Decoder.skipLoop]

mutual
theorem skipLoop_node : ∀ (c : Node) (more : List Raw) (stk : List Entry) (ns : NsMap)
    (depth : Nat), NoPending stk →
    Decoder.skipLoop (c.tokens ++ more) stk ns depth = Decoder.skipLoop more stk ns depth
  | .element n a cs, more, stk, ns, depth, h => by
    have ih := skipLoop_nodes cs (.tok (.EndElement n) :: more)
      (.start n :: (Decoder.declare a stk ns).1) (Decoder.declare a stk ns).2 (depth + 1) trivial
    rw [tokens_element_append, skipLoop_cons, step_start]
    simp only
    rw [ih, skipLoop_cons, step_end]
    simp only [Nat.add_one_ne_zero, if_false, Nat.add_sub_cancel]
    rw [unwind_declare, unwind_noPending stk ns h]
  | .text s, more, stk, ns, depth, _ => by
    simp [Node.tokens, skipLoop_cons, Decoder.step]
  | .comment s, more, stk, ns, depth, _ => by
    simp [Node.tokens, skipLoop_cons, Decoder.step]
  | .procInst t i, more, stk, ns, depth, _ => by
    simp [Node.tokens, skipLoop_cons, Decoder.step]
  | .directive s, more, stk, ns, depth, _ => by
    simp [Node.tokens, skipLoop_cons, Decoder.step]
theorem skipLoop_nodes : ∀ (cs : List Node) (more : List Raw) (stk : List Entry)
    (ns : NsMap) (depth : Nat), NoPending stk →
    Decoder.skipLoop (tokens cs ++ more) stk ns depth = Decoder.skipLoop more stk ns depth
  | [], more, stk, ns, depth, _ => by simp [tokens]
  | c :: rest, more, stk, ns, depth, h => by
    simp only [tokens, List.append_assoc]
    rw [skipLoop_node c _ _ _ _ h, skipLoop_nodes rest _ _ _ _ h]
end

/-- Skipping an element reads up to its end tag and leaves the stack and the
bindings as they were before its start tag. -/
theorem Skip_tokens (cs : List Node) (n : Name) (a : List Attr) (more : List Raw)
    (stk : List Entry) (ns : NsMap) (h : NoPending stk) :
    Decoder.Skip ⟨tokens cs ++ .tok (.EndElement n) :: more,
        .start n :: (Decoder.declare a stk ns).1, (Decoder.declare a stk ns).2⟩ =
      .ok ⟨more, stk, ns⟩ := by
  unfold Decoder.Skip
  simp only
  rw [skipLoop_nodes cs _ (.start n :: (Decoder.declare a stk ns).1) _ _ trivial,
    skipLoop_cons, step_end]
  simp only [if_true]
  rw [unwind_declare, unwind_noPending stk ns h]

theorem Token_cons (r : Raw) (rest : List Raw) (stk : List Entry) (ns : NsMap) :
    Decoder.Token ⟨r :: rest, stk, ns⟩ =
      match Decoder.step r stk ns with
      | .error e => .error e
      | .ok (t, stk1, ns1) => .ok (t, ⟨rest, stk1, ns1⟩) := by
  rfl

mutual
theorem unmarshal_node (pf : String → Except Error Float32) :
    ∀ (c : Node) (fuel : Nat) (k : Kind) (v : Val) (data : String) (more : List Raw)
      (stk : List Entry) (ns : NsMap), NoPending stk → c.tokens.length ≤ fuel + 1 →
    unmarshal pf (fuel + 1) k v data ⟨c.tokens ++ more, stk, ns⟩ =
      match unmarshalNode pf k v data c with
      | (v1, data1, none) => unmarshal pf fuel k v1 data1 ⟨more, stk, ns⟩
      | (v1, _, some e) => (v1, .err e)
  | .element n a cs, fuel, k, v, data, more, stk, ns, hs, h => by
    have hlen : (tokens cs).length < fuel := by
      simp [Node.tokens] at h; omega
    rw [tokens_element_append, unmarshal, Token_cons, step_start]
    simp only [unmarshalNode, translate_Local]
    cases hf : k.field? n.Local with
    | none =>
      simp only [Skip_tokens cs n a more stk ns hs]
    | some p =>
      obtain ⟨i, f⟩ := p
      by_cases hr : f.repeated = true
      · simp only [hr, if_true]
        rw [unmarshal_nodes pf cs fuel f.kind f.kind.zero "" n more _ _ hlen,
          unwind_declare, unwind_noPending stk ns hs]
        rcases unmarshalNodes pf f.kind f.kind.zero "" cs with ⟨x, _ | e⟩ <;> rfl
      · simp only [hr]
        rw [unmarshal_nodes pf cs fuel f.kind (v.field i) "" n more _ _ hlen,
          unwind_declare, unwind_noPending stk ns hs]
        rcases unmarshalNodes pf f.kind (v.field i) "" cs with ⟨x, _ | e⟩ <;> rfl
  | .text s, fuel, k, v, data, more, stk, ns, _, _ => by
    simp [Node.tokens, unmarshal, Token_cons, Decoder.step, unmarshalNode]
  | .comment s, fuel, k, v, data, more, stk, ns, _, _ => by
    simp [Node.tokens, unmarshal, Token_cons, Decoder.step, unmarshalNode]
  | .procInst t i, fuel, k, v, data, more, stk, ns, _, _ => by
    simp [Node.tokens, unmarshal, Token_cons, Decoder.step, unmarshalNode]
  | .directive s, fuel, k, v, data, more, stk, ns, _, _ => by
    simp [Node.tokens, unmarshal, Token_cons, Decoder.step, unmarshalNode]
/-- On the tokens of the children of an element, up to its end tag, `unmarshal`
does what `unmarshalNodes` does on the children, and leaves the decoder behind
the end tag with the bindings of the element undone. -/
theorem unmarshal_nodes (pf : String → Except Error Float32) :
    ∀ (cs : List Node) (fuel : Nat) (k : Kind) (v : Val) (data : String) (n : Name)
      (more : List Raw) (stk : List Entry) (ns : NsMap), (tokens cs).length < fuel →
    unmarshal pf fuel k v data ⟨tokens cs ++ .tok (.EndElement n) :: more, .start n :: stk, ns⟩ =
      match unmarshalNodes pf k v data cs with
      | (v1, none) => (v1, .ok ⟨more, (Decoder.unwind stk ns).1, (Decoder.unwind stk ns).2⟩)
      | (v1, some e) => (v1, .err e)
  | [], fuel, k, v, data, n, more, stk, ns, h => by
    obtain ⟨fuel, rfl⟩ : ∃ m, fuel = m + 1 := ⟨fuel - 1, by omega⟩
    simp only [tokens, List.nil_append, unmarshalNodes]
    rw [unmarshal, Token_cons, step_end]
    simp only
    cases copyValue pf k v data <;> rfl
  | c :: rest, fuel, k, v, data, n, more, stk, ns, h => by
    obtain ⟨fuel, rfl⟩ : ∃ m, fuel = m + 1 := ⟨fuel - 1, by omega⟩
    have hc := c.tokens_length_pos
    simp only [tokens, List.length_append] at h
    simp only [tokens, List.append_assoc, unmarshalNodes]
    rw [unmarshal_node pf c fuel k v data _ (.start n :: stk) ns trivial (by omega)]
    rcases unmarshalNode pf k v data c with ⟨v1, data1, _ | e⟩
    · simp only
      exact unmarshal_nodes pf rest fuel k v1 data1 n more stk ns (by omega)
    · rfl
end

theorem findStart_cons (r : Raw) (rest : List Raw) (stk : List Entry) (ns : NsMap) :
    findStart (r :: rest) stk ns =
      match Decoder.step r stk ns with
      | .error e => .error e
      | .ok (.StartElement n _, stk1, ns1) => .ok (n, ⟨rest, stk1, ns1⟩)
      | .ok (_, stk1, ns1) => findStart rest stk1 ns1 := by
  rw [findStart]

theorem findStart_prolog (pre : List Node) (n : Name) (a : List Attr) (more : List Raw)
    (ns : NsMap) (h : ∀ c ∈ pre, c.isElement = false) :
    findStart (tokens pre ++ .tok (.StartElement n a) :: more) [] ns =
      .ok (translate (Decoder.declare a [] ns).2 n true,
        ⟨more, .start n :: (Decoder.declare a [] ns).1, (Decoder.declare a [] ns).2⟩) := by
  induction pre with
  | nil =>
    simp only [tokens, List.nil_append]
    rw [findStart_cons, step_start]
  | cons c pre ih =>
    have hc := h c (by simp)
    have ih := ih (fun x hx => h x (by simp [hx]))
    cases c <;>
      simp_all [tokens, Node.tokens, findStart_cons, Decoder.step, Node.isElement]

/-- `Decode` on the tokens of a well-formed document, by the tree of the
document. -/
theorem Decode_document (pf : String → Except Error Float32) (d : Document)
    (h : d.WellFormed) :
    Decode pf d.tokens =
      if d.name.Local ≠ "feedback" then
        (Feedback.zero, .err (.UnmarshalError
          ("expected element type <feedback> but have <" ++ d.name.Local ++ ">")))
      else
        match unmarshalNodes pf Feedback.kind Feedback.kind.zero "" d.children with
        | (v, none) => (Feedback.ofVal d.rootName v, .nil)
        | (v, some e) => (Feedback.ofVal d.rootName v, .err e) := by
  unfold Decode Document.tokens Document.root
  rw [tokens_element_append, findStart_prolog _ _ _ _ _ h.1]
  simp only [translate_Local]
  by_cases hn : d.name.Local = "feedback"
  · simp only [hn, ne_eq, not_true_eq_false, if_false]
    rw [unmarshal_nodes pf d.children _ _ _ _ d.name (tokens d.epilog) _ _ (by simp; omega)]
    rcases unmarshalNodes pf Feedback.kind Feedback.kind.zero "" d.children with ⟨v, _ | e⟩ <;> rfl
  · simp [hn]

theorem unmarshalNodes_congr (pf : String → Except Error Float32) (k : Kind)
    (xs ys : List Node)
    (h : ∀ v data, unmarshalNodes pf k v data xs = unmarshalNodes pf k v data ys)
    (before : List Node) (v : Val) (data : String) :
    unmarshalNodes pf k v data (before ++ xs) = unmarshalNodes pf k v data (before ++ ys) := by
  induction before generalizing v data with
  | nil => simpa using h v data
  | cons c before ih =>
    simp only [List.cons_append, unmarshalNodes]
    rcases unmarshalNode pf k v data c with ⟨v1, data1, _ | e⟩
    · exact ih v1 data1
    · rfl

theorem unmarshalNodes_inserted (pf : String → Except Error Float32) (m : Name)
    (b : List Attr) (xs : List Node) (c : Option Kind) (cs cs1 : List Node)
    (h : Inserted m b xs c cs cs1) :
    ∀ k, c = some k → ∀ v data,
      unmarshalNodes pf k v data cs1 = unmarshalNodes pf k v data cs := by
  induction h with
  | here c before after hm =>
    intro k hk v data
    subst hk
    apply unmarshalNodes_congr
    intro v data
    simp only [childKind, Option.map_eq_none'] at hm
    simp [unmarshalNodes, unmarshalNode, hm]
  | inside c before after n a ks ks1 _ ih =>
    intro k hk v data
    subst hk
    apply unmarshalNodes_congr
    intro v data
    simp only [unmarshalNodes, unmarshalNode]
    cases hf : k.field? n.Local with
    | none => rfl
    | some p =>
      obtain ⟨i, f⟩ := p
      have ih := ih f.kind (by simp [childKind, hf])
      simp only [ih]

theorem lookup_cons (f : Field) (fs : List Field) (n : String) (i : Nat) :
    lookup (f :: fs) n i = if f.name = n then some (i, f) else lookup fs n (i + 1) := rfl

theorem unmarshalNodes_nil (pf : String → Except Error Float32) (k : Kind) (v : Val)
    (data : String) :
    unmarshalNodes pf k v data [] =
      match copyValue pf k v data with
      | .ok v1 => (v1, none)
      | .error e => (v, some e) := by
  rw [unmarshalNodes]

theorem unmarshalNodes_cons (pf : String → Except Error Float32) (k : Kind) (v : Val)
    (data : String) (c : Node) (rest : List Node) :
    unmarshalNodes pf k v data (c :: rest) =
      match unmarshalNode pf k v data c with
      | (v1, data1, none) => unmarshalNodes pf k v1 data1 rest
      | (v1, _, some e) => (v1, some e) := by
  rw [unmarshalNodes]

theorem unmarshalNode_elem (pf : String → Except Error Float32) (k : Kind) (v : Val)
    (data : String) (n : String) (cs : List Node) :
    unmarshalNode pf k v data (elem n cs) =
      match k.field? n with
      | some (i, f) =>
        if f.repeated then
          match unmarshalNodes pf f.kind f.kind.zero "" cs with
          | (x, none) => (v.setField i ((v.field i).push x), data, none)
          | (_, some e) => (v, data, some e)
        else
          match unmarshalNodes pf f.kind (v.field i) "" cs with
          | (x, err) => (v.setField i x, data, err)
      | none => (v, data, none) := by
  rw [elem, unmarshalNode]

theorem unmarshalNode_text (pf : String → Except Error Float32) (k : Kind) (v : Val)
    (data s : String) :
    unmarshalNode pf k v data (.text s) = (v, if k.savesData then data ++ s else data, none) := by
  rw [unmarshalNode]

theorem String.empty_append_eq (s : String) : "" ++ s = s := by
  apply String.ext
  simp

theorem unmarshalNode_element (pf : String → Except Error Float32) (k : Kind) (v : Val)
    (data : String) (n : Name) (a : List Attr) (cs : List Node) :
    unmarshalNode pf k v data (.element n a cs) =
      match k.field? n.Local with
      | some (i, f) =>
        if f.repeated then
          match unmarshalNodes pf f.kind f.kind.zero "" cs with
          | (x, none) => (v.setField i ((v.field i).push x), data, none)
          | (_, some e) => (v, data, some e)
        else
          match unmarshalNodes pf f.kind (v.field i) "" cs with
          | (x, err) => (v.setField i x, data, err)
      | none => (v, data, none) := by
  rw [unmarshalNode]

theorem lookup_spec (fs : List Field) (n : String) (k i : Nat) (f : Field)
    (h : lookup fs n k = some (i, f)) : k ≤ i ∧ fs[i - k]? = some f ∧ f.name = n := by
  induction fs generalizing k with
  | nil => simp [lookup] at h
  | cons g fs ih =>
    rw [lookup_cons] at h
    by_cases hg : g.name = n
    · simp only [hg, if_true, Option.some.injEq, Prod.mk.injEq] at h
      obtain ⟨rfl, rfl⟩ := h
      simp [hg]
    · simp only [hg, if_false] at h
      obtain ⟨h1, h2, h3⟩ := ih (k + 1) h
      refine ⟨by omega, ?_, h3⟩
      have : i - k = (i - (k + 1)) + 1 := by omega
      rw [this]
      simpa using h2

theorem lookup_index_ne (fs : List Field) (n m : String) (i j : Nat) (f g : Field)
    (hn : lookup fs n 0 = some (i, f)) (hm : lookup fs m 0 = some (j, g)) (hne : m ≠ n) :
    j ≠ i := by
  obtain ⟨_, h1, h2⟩ := lookup_spec fs n 0 i f hn
  obtain ⟨_, h3, h4⟩ := lookup_spec fs m 0 j g hm
  rintro rfl
  simp only [Nat.sub_zero] at h1 h3
  rw [h1] at h3
  injection h3 with h3
  subst h3
  exact hne (h4.symm.trans h2)

theorem lookup_index_lt (fs : List Field) (n : String) (i : Nat) (f : Field)
    (hn : lookup fs n 0 = some (i, f)) : i < fs.length := by
  obtain ⟨_, h1, _⟩ := lookup_spec fs n 0 i f hn
  simp only [Nat.sub_zero] at h1
  exact (List.getElem?_eq_some.1 h1).1

theorem lookup_same (fs : List Field) (n : String) (i j : Nat) (f g : Field)
    (hn : lookup fs n 0 = some (i, f)) (hm : lookup fs n 0 = some (j, g)) : j = i ∧ g = f := by
  rw [hn] at hm
  simp only [Option.some.injEq, Prod.mk.injEq] at hm
  exact ⟨hm.1.symm, hm.2.symm⟩

theorem Val.field_set_same (vs : List Val) (i : Nat) (y : Val) (h : i < vs.length) :
    ((Val.struct vs).setField i y).field i = y := by
  simp [Val.setField, Val.field, List.getD_eq_getElem?_getD, h]

theorem Val.field_set_other (vs : List Val) (i j : Nat) (y : Val) (h : j ≠ i) :
    ((Val.struct vs).setField j y).field i = (Val.struct vs).field i := by
  simp [Val.setField, Val.field, List.getD_eq_getElem?_getD, List.getElem?_set_ne h]

theorem Val.IsStruct_setField (n : Nat) (v : Val) (i : Nat) (y : Val) (h : v.IsStruct n) :
    (v.setField i y).IsStruct n := by
  obtain ⟨vs, rfl, hl⟩ := h
  exact ⟨vs.set i y, rfl, by simpa using hl⟩

theorem Kind.zeroFields_length (fs : List (String × Bool × Kind)) :
    (Kind.zeroFields fs).length = fs.length := by
  induction fs with
  | nil => simp [Kind.zeroFields]
  | cons f fs ih =>
    obtain ⟨n, rep, k⟩ := f
    simp [Kind.zeroFields, ih]

theorem Kind.zero_isStruct (fs : List (String × Bool × Kind)) :
    (Kind.struct fs).zero.IsStruct fs.length :=
  ⟨Kind.zeroFields fs, by simp [Kind.zero], Kind.zeroFields_length fs⟩

/-- Decoding keeps a struct a struct, also when it fails. -/
theorem unmarshalNodes_isStruct (pf : String → Except Error Float32)
    (fs : List (String × Bool × Kind)) (n : Nat) (cs : List Node) :
    ∀ (v : Val) (data : String), v.IsStruct n →
      (unmarshalNodes pf (.struct fs) v data cs).1.IsStruct n := by
  induction cs with
  | nil =>
    intro v data hv
    simp [unmarshalNodes_nil, copyValue, hv]
  | cons c cs ih =>
    intro v data hv
    rw [unmarshalNodes_cons]
    have hc : (unmarshalNode pf (.struct fs) v data c).1.IsStruct n := by
      cases c with
      | element m a ks =>
        rw [unmarshalNode_element]
        cases hf : (Kind.struct fs).field? m.Local with
        | none => exact hv
        | some p =>
          obtain ⟨i, f⟩ := p
          by_cases hr : f.repeated = true
          · simp only [hr, if_true]
            rcases unmarshalNodes pf f.kind f.kind.zero "" ks with ⟨x, _ | e⟩
            · exact Val.IsStruct_setField _ _ _ _ hv
            · exact hv
          · simp only [hr]
            exact Val.IsStruct_setField _ _ _ _ hv
      | text s => rw [unmarshalNode_text]; exact hv
      | comment s => simpa [unmarshalNode] using hv
      | procInst t i => simpa [unmarshalNode] using hv
      | directive s => simpa [unmarshalNode] using hv
    rcases h : unmarshalNode pf (.struct fs) v data c with ⟨v1, data1, _ | e⟩
    · rw [h] at hc
      exact ih v1 data1 hc
    · rw [h] at hc
      exact hc

theorem elementsNamed_element (n : String) (m : Name) (a : List Attr) (ks rest : List Node) :
    elementsNamed n (.element m a ks :: rest) =
      if m.Local = n then ks :: elementsNamed n rest else elementsNamed n rest := by
  rw [elementsNamed]

theorem runField_cons (pf : String → Except Error Float32) (f : Field) (a : Val)
    (ks : List Node) (rest : List (List Node)) :
    runField pf f a (ks :: rest) =
      if f.repeated then
        match unmarshalNodes pf f.kind f.kind.zero "" ks with
        | (x, none) => runField pf f (a.push x) rest
        | (_, some _) => none
      else
        match unmarshalNodes pf f.kind a "" ks with
        | (x, none) => runField pf f x rest
        | (_, some _) => none := by
  rw [runField]

/-- After a decoding without error, a field holds what the child elements of its
name alone put there, in document order. -/
theorem runField_of_unmarshalNodes (pf : String → Except Error Float32) (fs : List Field)
    (n : String) (i : Nat) (f : Field) (hl : lookup fs n 0 = some (i, f)) (cs : List Node) :
    ∀ (v : Val) (data : String) (v1 : Val), v.IsStruct fs.length →
      unmarshalNodes pf (.struct fs) v data cs = (v1, none) →
      runField pf f (v.field i) (elementsNamed n cs) = some (v1.field i) := by
  have hi := lookup_index_lt fs n i f hl
  induction cs with
  | nil =>
    intro v data v1 _ h
    simp only [unmarshalNodes_nil, copyValue, Prod.mk.injEq, and_true] at h
    subst h
    simp [elementsNamed, runField]
  | cons c cs ih =>
    intro v data v1 hv h
    rw [unmarshalNodes_cons] at h
    cases c with
    | element m a ks =>
      rw [unmarshalNode_element] at h
      rw [elementsNamed_element]
      simp only [Kind.field?] at h
      cases hf : lookup fs m.Local 0 with
      | none =>
        rw [hf] at h
        have hne : m.Local ≠ n := by
          rintro rfl
          rw [hl] at hf
          exact absurd hf (by simp)
        simp only [hne, if_false]
        exact ih v data v1 hv h
      | some p =>
        obtain ⟨j, g⟩ := p
        rw [hf] at h
        obtain ⟨vs, rfl, hlen⟩ := hv
        by_cases hmn : m.Local = n
        · rw [hmn] at hf
          obtain ⟨rfl, rfl⟩ := lookup_same fs n i j f g hl hf
          simp only [hmn, if_true]
          rw [runField_cons]
          by_cases hr : g.repeated = true
          · simp only [hr, if_true] at h ⊢
            rcases hx : unmarshalNodes pf g.kind g.kind.zero "" ks with ⟨x, _ | e⟩
            · rw [hx] at h
              simp only at h ⊢
              have := ih _ data v1 (Val.IsStruct_setField _ _ j _ ⟨vs, rfl, hlen⟩) h
              rwa [Val.field_set_same vs j _ (by omega)] at this
            · rw [hx] at h
              simp at h
          · simp only [hr] at h ⊢
            rcases hx : unmarshalNodes pf g.kind ((Val.struct vs).field j) "" ks with
              ⟨x, _ | e⟩
            · rw [hx] at h
              simp only at h ⊢
              have := ih _ data v1 (Val.IsStruct_setField _ _ j _ ⟨vs, rfl, hlen⟩) h
              rwa [Val.field_set_same vs j _ (by omega)] at this
            · rw [hx] at h
              simp at h
        · simp only [hmn, if_false]
          have hji := lookup_index_ne fs n m.Local i j f g hl hf hmn
          by_cases hr : g.repeated = true
          · simp only [hr, if_true] at h
            rcases hx : unmarshalNodes pf g.kind g.kind.zero "" ks with ⟨x, _ | e⟩
            · rw [hx] at h
              simp only at h
              have := ih _ data v1 (Val.IsStruct_setField _ _ j _ ⟨vs, rfl, hlen⟩) h
              rwa [Val.field_set_other vs i j _ hji] at this
            · rw [hx] at h
              simp at h
          · simp only [hr] at h
            rcases hx : unmarshalNodes pf g.kind ((Val.struct vs).field j) "" ks with
              ⟨x, _ | e⟩
            · rw [hx] at h
              simp only at h
              have := ih _ data v1 (Val.IsStruct_setField _ _ j _ ⟨vs, rfl, hlen⟩) h
              rwa [Val.field_set_other vs i j _ hji] at this
            · rw [hx] at h
              simp at h
    | text s =>
      rw [unmarshalNode_text] at h
      simp only [elementsNamed]
      exact ih v _ v1 hv h
    | comment s =>
      simp only [unmarshalNode] at h
      simp only [elementsNamed]
      exact ih v _ v1 hv h
    | procInst t i =>
      simp only [unmarshalNode] at h
      simp only [elementsNamed]
      exact ih v _ v1 hv h
    | directive s =>
      simp only [unmarshalNode] at h
      simp only [elementsNamed]
      exact ih v _ v1 hv h

theorem runField_nil (pf : String → Except Error Float32) (f : Field) (a : Val) :
    runField pf f a [] = some a := by
  rw [runField]

theorem runField_append (pf : String → Except Error Float32) (f : Field)
    (l1 l2 : List (List Node)) :
    ∀ a, runField pf f a (l1 ++ l2) = (runField pf f a l1).bind (fun b => runField pf f b l2) := by
  induction l1 with
  | nil => intro a; simp [runField_nil]
  | cons ks l1 ih =>
    intro a
    rw [List.cons_append, runField_cons, runField_cons]
    by_cases hr : f.repeated = true
    · simp only [hr, if_true]
      rcases unmarshalNodes pf f.kind f.kind.zero "" ks with ⟨x, _ | e⟩
      · exact ih _
      · rfl
    · simp only [hr]
      rcases unmarshalNodes pf f.kind a "" ks with ⟨x, _ | e⟩
      · exact ih _
      · rfl

/-- A field of a struct that is itself a field: it holds what the elements of
its name inside all the elements of the outer name put there. -/
theorem runField_nested (pf : String → Except Error Float32) (f : Field)
    (fs : List Field) (hk : f.kind = .struct fs) (hr : f.repeated = false)
    (n2 : String) (i2 : Nat) (f2 : Field) (hl : lookup fs n2 0 = some (i2, f2))
    (l : List (List Node)) :
    ∀ a b, a.IsStruct fs.length → runField pf f a l = some b →
      runField pf f2 (a.field i2) (l.flatMap (elementsNamed n2)) = some (b.field i2) := by
  induction l with
  | nil =>
    intro a b _ h
    rw [runField_nil] at h
    injection h with h
    subst h
    simp [runField_nil]
  | cons ks l ih =>
    intro a b ha h
    rw [runField_cons] at h
    simp only [hr, Bool.false_eq_true, if_false, hk] at h
    rcases hx : unmarshalNodes pf (.struct fs) a "" ks with ⟨x, _ | e⟩
    · rw [hx] at h
      simp only at h
      have hxs : x.IsStruct fs.length := by
        have := unmarshalNodes_isStruct pf fs fs.length ks a "" ha
        rwa [hx] at this
      have h1 := runField_of_unmarshalNodes pf fs n2 i2 f2 hl ks a "" x ha hx
      have h2 := ih x b hxs h
      rw [List.flatMap_cons, runField_append, h1]
      exact h2
    · rw [hx] at h
      simp at h

theorem Val.toList_push (a x : Val) : (a.push x).toList = a.toList ++ [x] := by
  cases a <;> simp [Val.push, Val.toList]

/-- A slice field holds the decodings of the elements of its name, in document
order, each decoded without error. -/
theorem runField_repeated (pf : String → Except Error Float32) (f : Field)
    (hr : f.repeated = true) (l : List (List Node)) :
    ∀ a b, runField pf f a l = some b →
      b.toList = a.toList ++ l.map (decodeElement pf f.kind) ∧
        ∀ ks ∈ l, (unmarshalNodes pf f.kind f.kind.zero "" ks).2 = none := by
  induction l with
  | nil =>
    intro a b h
    rw [runField_nil] at h
    injection h with h
    subst h
    simp
  | cons ks l ih =>
    intro a b h
    rw [runField_cons] at h
    simp only [hr, if_true] at h
    rcases hx : unmarshalNodes pf f.kind f.kind.zero "" ks with ⟨x, _ | e⟩
    · rw [hx] at h
      simp only at h
      obtain ⟨h1, h2⟩ := ih _ b h
      refine ⟨?_, ?_⟩
      · rw [h1, Val.toList_push]
        simp [decodeElement, hx]
      · intro ks1 hks
        rcases List.mem_cons.1 hks with rfl | hks
        · rw [hx]
        · exact h2 ks1 hks
    · rw [hx] at h
      simp at h

theorem String.append_assoc_eq (a b c : String) : a ++ b ++ c = a ++ (b ++ c) := by
  apply String.ext
  simp

theorem String.append_empty_eq (a : String) : a ++ "" = a := by
  apply String.ext
  simp

/-- A string field holds the character data directly inside its element. -/
theorem unmarshalNodes_string (pf : String → Except Error Float32) (cs : List Node) :
    ∀ (v : Val) (data : String),
      unmarshalNodes pf .string v data cs = (.str (data ++ textOf cs), none) := by
  induction cs with
  | nil =>
    intro v data
    simp [unmarshalNodes_nil, copyValue, textOf, String.append_empty_eq]
  | cons c cs ih =>
    intro v data
    rw [unmarshalNodes_cons]
    cases c with
    | element m a ks =>
      rw [unmarshalNode_element]
      simp only [Kind.field?, textOf]
      exact ih v data
    | text s =>
      rw [unmarshalNode_text]
      simp only [Kind.savesData, if_true, textOf]
      rw [ih, String.append_assoc_eq]
    | comment s =>
      simp only [unmarshalNode, textOf]
      exact ih v data
    | procInst t i =>
      simp only [unmarshalNode, textOf]
      exact ih v data
    | directive s =>
      simp only [unmarshalNode, textOf]
      exact ih v data

theorem runField_decodeElement (pf : String → Except Error Float32) (fs : List Field)
    (n : String) (i : Nat) (f : Field) (hl : lookup fs n 0 = some (i, f)) (cs : List Node)
    (h : (unmarshalNodes pf (.struct fs) (Kind.struct fs).zero "" cs).2 = none) :
    runField pf f ((Kind.struct fs).zero.field i) (elementsNamed n cs) =
      some ((decodeElement pf (.struct fs) cs).field i) := by
  apply runField_of_unmarshalNodes pf fs n i f hl cs _ "" _ (Kind.zero_isStruct fs)
  unfold decodeElement
  rcases hx : unmarshalNodes pf (.struct fs) (Kind.struct fs).zero "" cs with ⟨x, e⟩
  rw [hx] at h
  simp only at h
  subst h
  rfl

/-- The reasons, DKIM results and SPF results of a record element that decodes
without error. -/
theorem Record_repeated (pf : String → Except Error Float32) (c : List Node)
    (h : (unmarshalNodes pf Record.kind Record.kind.zero "" c).2 = none) :
    (Record.ofVal (decodeElement pf Record.kind c)).Row.PolicyEvaluated.OverrideReasons =
        ((((elementsNamed "row" c).flatMap (elementsNamed "policy_evaluated")).flatMap
          (elementsNamed "reason")).map
            (fun q => PolicyOverrideReason.ofVal (decodeElement pf PolicyOverrideReason.kind q))) ∧
      (Record.ofVal (decodeElement pf Record.kind c)).AuthResult.Dkim =
        (((elementsNamed "auth_results" c).flatMap (elementsNamed "dkim")).map
          (fun q => DKIMAuthResult.ofVal (decodeElement pf DKIMAuthResult.kind q))) ∧
      (Record.ofVal (decodeElement pf Record.kind c)).AuthResult.Spf =
        (((elementsNamed "auth_results" c).flatMap (elementsNamed "spf")).map
          (fun q => SPFAuthResult.ofVal (decodeElement pf SPFAuthResult.kind q))) := by
  unfold Record.kind at h
  have hrow := runField_decodeElement pf _ "row" 0 ("row", false, Row.kind) (by rfl) c h
  have hauth := runField_decodeElement pf _ "auth_results" 2
    ("auth_results", false, AuthResult.kind) (by rfl) c h
  have hpe := runField_nested pf ("row", false, Row.kind) _ rfl rfl "policy_evaluated" 2
    ("policy_evaluated", false, PolicyEvaluated.kind) (by rfl) _ _ _ ⟨_, rfl, rfl⟩ hrow
  have hreason := runField_nested pf ("policy_evaluated", false, PolicyEvaluated.kind) _ rfl rfl
    "reason" 3 ("reason", true, PolicyOverrideReason.kind) (by rfl) _ _ _ ⟨_, rfl, rfl⟩ hpe
  have hdkim := runField_nested pf ("auth_results", false, AuthResult.kind) _ rfl rfl
    "dkim" 0 ("dkim", true, DKIMAuthResult.kind) (by rfl) _ _ _ ⟨_, rfl, rfl⟩ hauth
  have hspf := runField_nested pf ("auth_results", false, AuthResult.kind) _ rfl rfl
    "spf" 1 ("spf", true, SPFAuthResult.kind) (by rfl) _ _ _ ⟨_, rfl, rfl⟩ hauth
  have h1 := (runField_repeated pf _ (by rfl) _ _ _ hreason).1
  have h2 := (runField_repeated pf _ (by rfl) _ _ _ hdkim).1
  have h3 := (runField_repeated pf _ (by rfl) _ _ _ hspf).1
  refine ⟨?_, ?_, ?_⟩
  · simp only [Record.ofVal, Row.ofVal, PolicyEvaluated.ofVal]
    rw [show Record.kind = Kind.struct _ from rfl, h1]
    simp [Field.kind, Val.toList, Val.field, Kind.zero, Kind.zeroFields, Row.kind,
      PolicyEvaluated.kind]
  · simp only [Record.ofVal, AuthResult.ofVal]
    rw [show Record.kind = Kind.struct _ from rfl, h2]
    simp [Field.kind, Val.toList, Val.field, Kind.zero, Kind.zeroFields, AuthResult.kind]
  · simp only [Record.ofVal, AuthResult.ofVal]
    rw [show Record.kind = Kind.struct _ from rfl, h3]
    simp [Field.kind, Val.toList, Val.field, Kind.zero, Kind.zeroFields, AuthResult.kind]

theorem Token_length (d d1 : Decoder) (t : Token) (h : d.Token = .ok (t, d1)) :
    d1.input.length + 1 = d.input.length := by
  unfold Decoder.Token at h
  cases hi : d.input with
  | nil =>
    rw [hi] at h
    simp only at h
    split at h <;> simp at h
  | cons r rest =>
    rw [hi] at h
    simp only at h
    cases hs : Decoder.step r d.stk d.ns with
    | error e => rw [hs] at h; simp at h
    | ok p =>
      rw [hs] at h
      simp only [Except.ok.injEq, Prod.mk.injEq] at h
      rw [← h.2]
      simp

theorem skipLoop_length (input : List Raw) :
    ∀ (stk : List Entry) (ns : NsMap) (depth : Nat) (d2 : Decoder),
      Decoder.skipLoop input stk ns depth = .ok d2 → d2.input.length < input.length := by
  induction input with
  | nil =>
    intro stk ns depth d2 h
    simp only [Decoder.skipLoop] at h
    split at h <;> simp at h
  | cons r rest ih =>
    intro stk ns depth d2 h
    rw [skipLoop_cons] at h
    split at h
    · simp at h
    · have := ih _ _ _ _ h
      simp only [List.length_cons]
      omega
    · split at h
      · simp only [Except.ok.injEq] at h
        rw [← h]
        simp
      · have := ih _ _ _ _ h
        simp only [List.length_cons]
        omega
    · have := ih _ _ _ _ h
      simp only [List.length_cons]
      omega

/-- With a budget above the number of items left, `unmarshal` never runs out of
budget, and when it returns without error it has read at least one item. -/
theorem unmarshal_total (pf : String → Except Error Float32) (fuel : Nat) :
    ∀ (k : Kind) (v : Val) (data : String) (d : Decoder), d.input.length < fuel →
      (unmarshal pf fuel k v data d).2 ≠ .stuck ∧
        ∀ d2, (unmarshal pf fuel k v data d).2 = .ok d2 → d2.input.length < d.input.length := by
  induction fuel with
  | zero => intro k v data d h; omega
  | succ fuel ih =>
    intro k v data d h
    rw [unmarshal]
    cases ht : d.Token with
    | error e => simp
    | ok p =>
      obtain ⟨tok, d1⟩ := p
      have hl := Token_length d d1 tok ht
      have ih1 := fun k v data => ih k v data d1 (by omega)
      cases tok with
      | StartElement n a =>
        simp only
        cases hf : k.field? n.Local with
        | none =>
          simp only
          cases hs : d1.Skip with
          | error e => simp
          | ok d2 =>
            have hl2 := skipLoop_length _ _ _ _ _ hs
            obtain ⟨h1, h2⟩ := ih k v data d2 (by omega)
            exact ⟨h1, fun d3 h3 => by have := h2 d3 h3; omega⟩
        | some q =>
          obtain ⟨i, f⟩ := q
          simp only
          by_cases hr : f.repeated = true
          · simp only [hr, if_true]
            obtain ⟨h1, h2⟩ := ih1 f.kind f.kind.zero ""
            rcases hx : unmarshal pf fuel f.kind f.kind.zero "" d1 with ⟨x, d2 | e | _⟩
            · rw [hx] at h2
              have hl2 := h2 d2 rfl
              obtain ⟨h3, h4⟩ := ih k (v.setField i ((v.field i).push x)) data d2 (by omega)
              exact ⟨h3, fun d3 h5 => by have := h4 d3 h5; omega⟩
            · simp
            · rw [hx] at h1
              exact absurd rfl h1
          · simp only [hr]
            obtain ⟨h1, h2⟩ := ih1 f.kind (v.field i) ""
            rcases hx : unmarshal pf fuel f.kind (v.field i) "" d1 with ⟨x, d2 | e | _⟩
            · rw [hx] at h2
              have hl2 := h2 d2 rfl
              obtain ⟨h3, h4⟩ := ih k (v.setField i x) data d2 (by omega)
              exact ⟨h3, fun d3 h5 => by have := h4 d3 h5; omega⟩
            · simp
            · rw [hx] at h1
              exact absurd rfl h1
      | EndElement n =>
        simp only
        cases copyValue pf k v data with
        | error e => simp
        | ok v1 =>
          simp only [ne_eq, reduceCtorEq, not_false_eq_true, Outcome.ok.injEq, true_and]
          intro d2 h2
          subst h2
          omega
      | CharData s =>
        simp only
        obtain ⟨h1, h2⟩ := ih1 k v (if k.savesData then data ++ s else data)
        exact ⟨h1, fun d3 h3 => by have := h2 d3 h3; omega⟩
      | Comment s =>
        simp only
        obtain ⟨h1, h2⟩ := ih1 k v data
        exact ⟨h1, fun d3 h3 => by have := h2 d3 h3; omega⟩
      | ProcInst t i =>
        simp only
        obtain ⟨h1, h2⟩ := ih1 k v data
        exact ⟨h1, fun d3 h3 => by have := h2 d3 h3; omega⟩
      | Directive s =>
        simp only
        obtain ⟨h1, h2⟩ := ih1 k v data
        exact ⟨h1, fun d3 h3 => by have := h2 d3 h3; omega⟩

/-- The call `Decode` always returns: nil or an error, on every input. -/
theorem Decode_total (pf : String → Except Error Float32) (input : List Raw) :
    (Decode pf input).2 ≠ .stuck := by
  unfold Decode
  cases findStart input [] (fun _ => none) with
  | error e => simp
  | ok p =>
    obtain ⟨start, d⟩ := p
    simp only
    split
    · simp
    · have h := (unmarshal_total pf (d.input.length + 1) Feedback.kind Feedback.kind.zero "" d
        (by omega)).1
      rcases hx : unmarshal pf (d.input.length + 1) Feedback.kind Feedback.kind.zero "" d with
        ⟨v, d2 | e | _⟩
      · simp
      · simp
      · rw [hx] at h
        exact absurd rfl h

/-! ## A document decodes without error exactly when its numbers are numerals -/

theorem validNode_element (pf : String → Except Error Float32) (k : Kind) (n : Name)
    (a : List Attr) (cs : List Node) :
    validNode pf k (.element n a cs) =
      match k.field? n.Local with
      | some (_, f) => validNodes pf f.kind cs ∧ validText pf f.kind (textOf cs)
      | none => True := by
  rw [validNode]

theorem validNodes_cons (pf : String → Except Error Float32) (k : Kind) (c : Node)
    (rest : List Node) :
    validNodes pf k (c :: rest) = (validNode pf k c ∧ validNodes pf k rest) := by
  rw [validNodes]

theorem validNodes_nil (pf : String → Except Error Float32) (k : Kind) :
    validNodes pf k [] = True := by
  rw [validNodes]

theorem textOf_cons (c : Node) (rest : List Node) :
    textOf (c :: rest) = textOf [c] ++ textOf rest := by
  cases c <;> simp [textOf, String.append_empty_eq, String.empty_append_eq]

theorem copyValue_valid (pf : String → Except Error Float32) (k : Kind) (v : Val)
    (data : String) :
    (∃ v1, copyValue pf k v data = .ok v1) ↔ validText pf k data := by
  cases k with
  | string => simp [copyValue, validText]
  | int =>
    simp only [copyValue, validText]
    by_cases hd : data = ""
    · simp [hd]
    · simp only [hd, if_false, false_or]
      cases ParseInt (TrimSpace data) <;> simp
  | float32 =>
    simp only [copyValue, validText]
    by_cases hd : data = ""
    · simp [hd]
    · simp only [hd, if_false, false_or]
      cases pf (TrimSpace data) <;> simp
  | struct fs => simp [copyValue, validText]

theorem unmarshalNode_data (pf : String → Except Error Float32) (k : Kind) (v : Val)
    (data : String) (c : Node) :
    (unmarshalNode pf k v data c).2.1 = if k.savesData then data ++ textOf [c] else data := by
  cases c with
  | element n a cs =>
    rw [unmarshalNode_element]
    have : (if k.savesData then data ++ textOf [Node.element n a cs] else data) = data := by
      simp [textOf, String.append_empty_eq]
    rw [this]
    cases hf : k.field? n.Local with
    | none => rfl
    | some p =>
      obtain ⟨i, f⟩ := p
      by_cases hr : f.repeated = true
      · simp only [hr, if_true]
        rcases unmarshalNodes pf f.kind f.kind.zero "" cs with ⟨x, _ | e⟩ <;> rfl
      · simp only [hr]
        rfl
  | text s =>
    rw [unmarshalNode_text]
    simp [textOf, String.append_empty_eq]
  | comment s => simp [unmarshalNode, textOf, String.append_empty_eq]
  | procInst t i => simp [unmarshalNode, textOf, String.append_empty_eq]
  | directive s => simp [unmarshalNode, textOf, String.append_empty_eq]

mutual
theorem unmarshalNode_valid (pf : String → Except Error Float32) :
    ∀ (c : Node) (k : Kind) (v : Val) (data : String),
      (unmarshalNode pf k v data c).2.2 = none ↔ validNode pf k c
  | .element n a cs, k, v, data => by
    rw [unmarshalNode_element, validNode_element]
    cases hf : k.field? n.Local with
    | none => simp
    | some p =>
      obtain ⟨i, f⟩ := p
      simp only
      by_cases hr : f.repeated = true
      · simp only [hr, if_true]
        have ih := unmarshalNodes_valid pf cs f.kind f.kind.zero ""
        rw [String.empty_append_eq] at ih
        rw [← ih]
        rcases unmarshalNodes pf f.kind f.kind.zero "" cs with ⟨x, _ | e⟩ <;> simp
      · simp only [hr]
        have ih := unmarshalNodes_valid pf cs f.kind (v.field i) ""
        rw [String.empty_append_eq] at ih
        rw [← ih]
        rfl
  | .text s, k, v, data => by simp [unmarshalNode, validNode]
  | .comment s, k, v, data => by simp [unmarshalNode, validNode]
  | .procInst t i, k, v, data => by simp [unmarshalNode, validNode]
  | .directive s, k, v, data => by simp [unmarshalNode, validNode]
/-- Decoding the children of an element ends without error exactly when they are
valid: every number of the data model is a numeral. -/
theorem unmarshalNodes_valid (pf : String → Except Error Float32) :
    ∀ (cs : List Node) (k : Kind) (v : Val) (data : String),
      (unmarshalNodes pf k v data cs).2 = none ↔
        validNodes pf k cs ∧ validText pf k (data ++ textOf cs)
  | [], k, v, data => by
    rw [unmarshalNodes_nil, validNodes_nil]
    have h := copyValue_valid pf k v data
    simp only [textOf, String.append_empty_eq, true_and]
    rw [← h]
    cases copyValue pf k v data <;> simp
  | c :: rest, k, v, data => by
    rw [unmarshalNodes_cons, validNodes_cons]
    have h1 := unmarshalNode_valid pf c k v data
    have hd := unmarshalNode_data pf k v data c
    have ht : validText pf k ((if k.savesData then data ++ textOf [c] else data) ++ textOf rest) ↔
        validText pf k (data ++ textOf (c :: rest)) := by
      cases k with
      | struct fs => simp [validText]
      | string => simp [validText]
      | int => simp [Kind.savesData, textOf_cons c rest, String.append_assoc_eq]
      | float32 => simp [Kind.savesData, textOf_cons c rest, String.append_assoc_eq]
    rcases hx : unmarshalNode pf k v data c with ⟨v1, data1, _ | e⟩
    · rw [hx] at h1 hd
      simp only at h1 hd ⊢
      rw [unmarshalNodes_valid pf rest k v1 data1, hd, ht]
      simp only [true_iff] at h1
      simp [h1]
    · rw [hx] at h1
      simp only at h1 ⊢
      simp only [false_iff, reduceCtorEq] at h1
      simp [h1]
end

/-! ## What a field holds, by element name -/

theorem under_single (n : String) (c : List Node) : under n [c] = elementsNamed n c := by
  simp [under]

/-- A scalar element holds what `copyValue` makes of the character data directly
inside it. -/
theorem unmarshalNodes_scalar (pf : String → Except Error Float32) (k : Kind)
    (hk : k.savesData = true) (cs : List Node) :
    ∀ (v : Val) (data : String),
      unmarshalNodes pf k v data cs = unmarshalNodes pf k v (data ++ textOf cs) [] := by
  have hf : ∀ n, k.field? n = none := by
    intro n
    cases k <;> simp_all [Kind.field?, Kind.savesData]
  induction cs with
  | nil =>
    intro v data
    simp [textOf, String.append_empty_eq]
  | cons c cs ih =>
    intro v data
    rw [unmarshalNodes_cons]
    cases c with
    | element m a ks =>
      rw [unmarshalNode_element, hf]
      simp only [textOf]
      exact ih v data
    | text s =>
      rw [unmarshalNode_text]
      simp only [hk, if_true, textOf]
      rw [ih, String.append_assoc_eq]
    | comment s =>
      simp only [unmarshalNode, textOf]
      exact ih v data
    | procInst t i =>
      simp only [unmarshalNode, textOf]
      exact ih v data
    | directive s =>
      simp only [unmarshalNode, textOf]
      exact ih v data

theorem unmarshalNodes_int (pf : String → Except Error Float32) (cs : List Node) (v x : Val)
    (h : unmarshalNodes pf .int v "" cs = (x, none)) : x = .int (intOf (textOf cs)) := by
  rw [unmarshalNodes_scalar pf .int rfl, String.empty_append_eq, unmarshalNodes_nil] at h
  unfold intOf
  simp only [copyValue] at h
  by_cases hd : textOf cs = ""
  · simp only [hd, if_true, Prod.mk.injEq, and_true] at h ⊢
    exact h.symm
  · simp only [hd, if_false] at h ⊢
    cases hp : ParseInt (TrimSpace (textOf cs)) with
    | ok i =>
      rw [hp] at h
      simp only [Prod.mk.injEq, and_true] at h
      exact h.symm
    | error e =>
      rw [hp] at h
      simp at h

theorem unmarshalNodes_float32 (pf : String → Except Error Float32) (cs : List Node)
    (v x : Val) (h : unmarshalNodes pf .float32 v "" cs = (x, none)) :
    x = .f32 (floatOf pf (textOf cs)) := by
  rw [unmarshalNodes_scalar pf .float32 rfl, String.empty_append_eq, unmarshalNodes_nil] at h
  unfold floatOf
  simp only [copyValue] at h
  by_cases hd : textOf cs = ""
  · simp only [hd, if_true, Prod.mk.injEq, and_true] at h ⊢
    exact h.symm
  · simp only [hd, if_false] at h ⊢
    cases hp : pf (TrimSpace (textOf cs)) with
    | ok i =>
      rw [hp] at h
      simp only [Prod.mk.injEq, and_true] at h
      exact h.symm
    | error e =>
      rw [hp] at h
      simp at h

/-- A field that is not a slice holds what the last element of its name put
there: a scalar is overwritten by every element. -/
theorem runField_last (pf : String → Except Error Float32) (f : Field)
    (hr : f.repeated = false) (g : List Node → Val)
    (hg : ∀ ks v x, unmarshalNodes pf f.kind v "" ks = (x, none) → x = g ks)
    (l : List (List Node)) :
    ∀ a b, runField pf f a l = some b →
      b = match l.getLast? with
        | some ks => g ks
        | none => a := by
  induction l with
  | nil =>
    intro a b h
    rw [runField_nil] at h
    injection h with h
    subst h
    rfl
  | cons ks l ih =>
    intro a b h
    rw [runField_cons] at h
    simp only [hr, Bool.false_eq_true, if_false] at h
    rcases hx : unmarshalNodes pf f.kind a "" ks with ⟨x, _ | e⟩
    · rw [hx] at h
      simp only at h
      have h1 := ih x b h
      have hx1 := hg ks a x hx
      rw [h1, List.getLast?_cons]
      cases l.getLast? with
      | none => simpa using hx1
      | some ks1 => rfl
    · rw [hx] at h
      simp at h

theorem field_str (pf : String → Except Error Float32) (f : Field) (fs : List Field)
    (hk : f.kind = .struct fs) (hr : f.repeated = false) (n2 : String) (i2 : Nat)
    (hl : lookup fs n2 0 = some (i2, (n2, false, .string))) (l : List (List Node))
    (a b : Val) (ha : a.IsStruct fs.length) (h0 : (a.field i2).toStr = "")
    (h : runField pf f a l = some b) : (b.field i2).toStr = strAt (under n2 l) := by
  have h2 := runField_nested pf f fs hk hr n2 i2 _ hl l a b ha h
  have h3 := runField_last pf (n2, false, .string) rfl (fun ks => .str (textOf ks))
    (fun ks v x hx => by
      simp only [Field.kind] at hx
      rw [unmarshalNodes_string, String.empty_append_eq] at hx
      simp only [Prod.mk.injEq, and_true] at hx
      exact hx.symm) _ _ _ h2
  unfold strAt under
  rw [h3]
  cases (l.flatMap (elementsNamed n2)).getLast? with
  | none => exact h0
  | some ks => rfl

theorem field_int (pf : String → Except Error Float32) (f : Field) (fs : List Field)
    (hk : f.kind = .struct fs) (hr : f.repeated = false) (n2 : String) (i2 : Nat)
    (hl : lookup fs n2 0 = some (i2, (n2, false, .int))) (l : List (List Node))
    (a b : Val) (ha : a.IsStruct fs.length) (h0 : (a.field i2).toInt = 0)
    (h : runField pf f a l = some b) : (b.field i2).toInt = intAt (under n2 l) := by
  have h2 := runField_nested pf f fs hk hr n2 i2 _ hl l a b ha h
  have h3 := runField_last pf (n2, false, .int) rfl (fun ks => .int (intOf (textOf ks)))
    (fun ks v x hx => unmarshalNodes_int pf ks v x hx) _ _ _ h2
  unfold intAt under
  rw [h3]
  cases (l.flatMap (elementsNamed n2)).getLast? with
  | none => exact h0
  | some ks => rfl

theorem field_f32 (pf : String → Except Error Float32) (f : Field) (fs : List Field)
    (hk : f.kind = .struct fs) (hr : f.repeated = false) (n2 : String) (i2 : Nat)
    (hl : lookup fs n2 0 = some (i2, (n2, false, .float32))) (l : List (List Node))
    (a b : Val) (ha : a.IsStruct fs.length) (h0 : (a.field i2).toF32 = ⟨0⟩)
    (h : runField pf f a l = some b) : (b.field i2).toF32 = floatAt pf (under n2 l) := by
  have h2 := runField_nested pf f fs hk hr n2 i2 _ hl l a b ha h
  have h3 := runField_last pf (n2, false, .float32) rfl (fun ks => .f32 (floatOf pf (textOf ks)))
    (fun ks v x hx => unmarshalNodes_float32 pf ks v x hx) _ _ _ h2
  unfold floatAt under
  rw [h3]
  cases (l.flatMap (elementsNamed n2)).getLast? with
  | none => exact h0
  | some ks => rfl

theorem field_strs (pf : String → Except Error Float32) (f : Field) (fs : List Field)
    (hk : f.kind = .struct fs) (hr : f.repeated = false) (n2 : String) (i2 : Nat)
    (hl : lookup fs n2 0 = some (i2, (n2, true, .string))) (l : List (List Node))
    (a b : Val) (ha : a.IsStruct fs.length) (h0 : (a.field i2).toList = [])
    (h : runField pf f a l = some b) :
    (b.field i2).toList.map Val.toStr = (under n2 l).map textOf := by
  have h2 := runField_nested pf f fs hk hr n2 i2 _ hl l a b ha h
  have h3 := (runField_repeated pf (n2, true, .string) rfl _ _ _ h2).1
  rw [h3, h0]
  simp only [List.nil_append, List.map_map, under]
  apply List.map_congr_left
  intro ks _
  simp [decodeElement, Field.kind, unmarshalNodes_string, String.empty_append_eq, Val.toStr]

theorem field_structs {α : Type} (pf : String → Except Error Float32) (f : Field)
    (fs : List Field) (hk : f.kind = .struct fs) (hr : f.repeated = false) (n2 : String)
    (i2 : Nat) (k2 : Kind) (hl : lookup fs n2 0 = some (i2, (n2, true, k2)))
    (g : Val → α) (r : List (List Node) → α)
    (hg : ∀ c, (unmarshalNodes pf k2 k2.zero "" c).2 = none → g (decodeElement pf k2 c) = r [c])
    (l : List (List Node)) (a b : Val) (ha : a.IsStruct fs.length)
    (h0 : (a.field i2).toList = []) (h : runField pf f a l = some b) :
    (b.field i2).toList.map g = (under n2 l).map (fun c => r [c]) := by
  have h2 := runField_nested pf f fs hk hr n2 i2 _ hl l a b ha h
  obtain ⟨h3, h4⟩ := runField_repeated pf (n2, true, k2) rfl _ _ _ h2
  rw [h3, h0]
  simp only [List.nil_append, List.map_map, under]
  apply List.map_congr_left
  intro ks hks
  exact hg ks (h4 ks hks)

theorem runField_element (pf : String → Except Error Float32) (k : Kind) (c : List Node)
    (h : (unmarshalNodes pf k k.zero "" c).2 = none) :
    runField pf ("", false, k) k.zero [c] = some (decodeElement pf k c) := by
  rw [runField_cons]
  simp only [Field.repeated, Field.kind, Bool.false_eq_true, if_false, decodeElement]
  rcases hx : unmarshalNodes pf k k.zero "" c with ⟨x, e⟩
  rw [hx] at h
  simp only at h
  subst h
  simp [runField_nil]

/-! ## The decoded value is the report read off the document by the struct tags -/

/-- The decoding of `DateRange` elements that decode without error is the `DateRange`
they state. -/
theorem read_DateRange (pf : String → Except Error Float32) (f : Field)
    (hk : f.kind = DateRange.kind) (hr : f.repeated = false) (l : List (List Node)) (b : Val)
    (h : runField pf f DateRange.kind.zero l = some b) : DateRange.ofVal b = DateRange.read l := by
  have ha : DateRange.kind.zero.IsStruct 2 := ⟨_, rfl, rfl⟩
  unfold DateRange.ofVal DateRange.read
  congr 1
  · exact field_int pf f _ hk hr "begin" 0 (by rfl) l _ _ ha rfl h
  · exact field_int pf f _ hk hr "end" 1 (by rfl) l _ _ ha rfl h

/-- The decoding of `Metadata` elements that decode without error is the `Metadata`
they state. -/
theorem read_Metadata (pf : String → Except Error Float32) (f : Field)
    (hk : f.kind = Metadata.kind) (hr : f.repeated = false) (l : List (List Node)) (b : Val)
    (h : runField pf f Metadata.kind.zero l = some b) : Metadata.ofVal b = Metadata.read l := by
  have ha : Metadata.kind.zero.IsStruct 6 := ⟨_, rfl, rfl⟩
  unfold Metadata.ofVal Metadata.read
  congr 1
  · exact field_str pf f _ hk hr "org_name" 0 (by rfl) l _ _ ha rfl h
  · exact field_str pf f _ hk hr "email" 1 (by rfl) l _ _ ha rfl h
  · exact field_str pf f _ hk hr "extra_contact_info" 2 (by rfl) l _ _ ha rfl h
  · exact field_str pf f _ hk hr "report_id" 3 (by rfl) l _ _ ha rfl h
  · exact read_DateRange pf ("date_range", false, DateRange.kind) rfl rfl _ _
      (runField_nested pf f _ hk hr "date_range" 4 _ (by rfl) l _ _ ha h)
  · exact field_strs pf f _ hk hr "error" 5 (by rfl) l _ _ ha rfl h

/-- The decoding of `PolicyPublished` elements that decode without error is the `PolicyPublished`
they state. -/
theorem read_PolicyPublished (pf : String → Except Error Float32) (f : Field)
    (hk : f.kind = PolicyPublished.kind) (hr : f.repeated = false) (l : List (List Node)) (b : Val)
    (h : runField pf f PolicyPublished.kind.zero l = some b) : PolicyPublished.ofVal b = PolicyPublished.read l := by
  have ha : PolicyPublished.kind.zero.IsStruct 7 := ⟨_, rfl, rfl⟩
  unfold PolicyPublished.ofVal PolicyPublished.read
  congr 1
  · exact field_str pf f _ hk hr "domain" 0 (by rfl) l _ _ ha rfl h
  · exact field_str pf f _ hk hr "adkim" 1 (by rfl) l _ _ ha rfl h
  · exact field_str pf f _ hk hr "aspf" 2 (by rfl) l _ _ ha rfl h
  · exact field_str pf f _ hk hr "p" 3 (by rfl) l _ _ ha rfl h
  · exact field_str pf f _ hk hr "sp" 4 (by rfl) l _ _ ha rfl h
  · exact field_int pf f _ hk hr "pct" 5 (by rfl) l _ _ ha rfl h
  · exact field_str pf f _ hk hr "fo" 6 (by rfl) l _ _ ha rfl h

/-- The decoding of `PolicyOverrideReason` elements that decode without error is the `PolicyOverrideReason`
they state. -/
theorem read_PolicyOverrideReason (pf : String → Except Error Float32) (f : Field)
    (hk : f.kind = PolicyOverrideReason.kind) (hr : f.repeated = false) (l : List (List Node)) (b : Val)
    (h : runField pf f PolicyOverrideReason.kind.zero l = some b) : PolicyOverrideReason.ofVal b = PolicyOverrideReason.read l := by
  have ha : PolicyOverrideReason.kind.zero.IsStruct 2 := ⟨_, rfl, rfl⟩
  unfold PolicyOverrideReason.ofVal PolicyOverrideReason.read
  congr 1
  · exact field_str pf f _ hk hr "type" 0 (by rfl) l _ _ ha rfl h
  · exact field_str pf f _ hk hr "comment" 1 (by rfl) l _ _ ha rfl h

/-- The decoding of `PolicyEvaluated` elements that decode without error is the `PolicyEvaluated`
they state. -/
theorem read_PolicyEvaluated (pf : String → Except Error Float32) (f : Field)
    (hk : f.kind = PolicyEvaluated.kind) (hr : f.repeated = false) (l : List (List Node)) (b : Val)
    (h : runField pf f PolicyEvaluated.kind.zero l = some b) : PolicyEvaluated.ofVal b = PolicyEvaluated.read l := by
  have ha : PolicyEvaluated.kind.zero.IsStruct 4 := ⟨_, rfl, rfl⟩
  unfold PolicyEvaluated.ofVal PolicyEvaluated.read
  congr 1
  · exact field_str pf f _ hk hr "disposition" 0 (by rfl) l _ _ ha rfl h
  · exact field_str pf f _ hk hr "dkim" 1 (by rfl) l _ _ ha rfl h
  · exact field_str pf f _ hk hr "spf" 2 (by rfl) l _ _ ha rfl h
  · exact field_structs pf f _ hk hr "reason" 3 PolicyOverrideReason.kind (by rfl) PolicyOverrideReason.ofVal PolicyOverrideReason.read
      (fun c hc => read_PolicyOverrideReason pf ("", false, PolicyOverrideReason.kind) rfl rfl [c] _ (runField_element pf _ c hc))
      l _ _ ha rfl h

/-- The decoding of `Row` elements that decode without error is the `Row`
they state. -/
theorem read_Row (pf : String → Except Error Float32) (f : Field)
    (hk : f.kind = Row.kind) (hr : f.repeated = false) (l : List (List Node)) (b : Val)
    (h : runField pf f Row.kind.zero l = some b) : Row.ofVal b = Row.read l := by
  have ha : Row.kind.zero.IsStruct 3 := ⟨_, rfl, rfl⟩
  unfold Row.ofVal Row.read
  congr 1
  · exact field_str pf f _ hk hr "source_ip" 0 (by rfl) l _ _ ha rfl h
  · exact field_int pf f _ hk hr "count" 1 (by rfl) l _ _ ha rfl h
  · exact read_PolicyEvaluated pf ("policy_evaluated", false, PolicyEvaluated.kind) rfl rfl _ _
      (runField_nested pf f _ hk hr "policy_evaluated" 2 _ (by rfl) l _ _ ha h)

/-- The decoding of `Identifier` elements that decode without error is the `Identifier`
they state. -/
theorem read_Identifier (pf : String → Except Error Float32) (f : Field)
    (hk : f.kind = Identifier.kind) (hr : f.repeated = false) (l : List (List Node)) (b : Val)
    (h : runField pf f Identifier.kind.zero l = some b) : Identifier.ofVal b = Identifier.read l := by
  have ha : Identifier.kind.zero.IsStruct 3 := ⟨_, rfl, rfl⟩
  unfold Identifier.ofVal Identifier.read
  congr 1
  · exact field_str pf f _ hk hr "envelope_to" 0 (by rfl) l _ _ ha rfl h
  · exact field_str pf f _ hk hr "mail_from" 1 (by rfl) l _ _ ha rfl h
  · exact field_str pf f _ hk hr "header_from" 2 (by rfl) l _ _ ha rfl h

/-- The decoding of `DKIMAuthResult` elements that decode without error is the `DKIMAuthResult`
they state. -/
theorem read_DKIMAuthResult (pf : String → Except Error Float32) (f : Field)
    (hk : f.kind = DKIMAuthResult.kind) (hr : f.repeated = false) (l : List (List Node)) (b : Val)
    (h : runField pf f DKIMAuthResult.kind.zero l = some b) : DKIMAuthResult.ofVal b = DKIMAuthResult.read l := by
  have ha : DKIMAuthResult.kind.zero.IsStruct 4 := ⟨_, rfl, rfl⟩
  unfold DKIMAuthResult.ofVal DKIMAuthResult.read
  congr 1
  · exact field_str pf f _ hk hr "domain" 0 (by rfl) l _ _ ha rfl h
  · exact field_str pf f _ hk hr "selector" 1 (by rfl) l _ _ ha rfl h
  · exact field_str pf f _ hk hr "result" 2 (by rfl) l _ _ ha rfl h
  · exact field_str pf f _ hk hr "human_result" 3 (by rfl) l _ _ ha rfl h

/-- The decoding of `SPFAuthResult` elements that decode without error is the `SPFAuthResult`
they state. -/
theorem read_SPFAuthResult (pf : String → Except Error Float32) (f : Field)
    (hk : f.kind = SPFAuthResult.kind) (hr : f.repeated = false) (l : List (List Node)) (b : Val)
    (h : runField pf f SPFAuthResult.kind.zero l = some b) : SPFAuthResult.ofVal b = SPFAuthResult.read l := by
  have ha : SPFAuthResult.kind.zero.IsStruct 3 := ⟨_, rfl, rfl⟩
  unfold SPFAuthResult.ofVal SPFAuthResult.read
  congr 1
  · exact field_str pf f _ hk hr "domain" 0 (by rfl) l _ _ ha rfl h
  · exact field_str pf f _ hk hr "scope" 1 (by rfl) l _ _ ha rfl h
  · exact field_str pf f _ hk hr "result" 2 (by rfl) l _ _ ha rfl h

/-- The decoding of `AuthResult` elements that decode without error is the `AuthResult`
they state. -/
theorem read_AuthResult (pf : String → Except Error Float32) (f : Field)
    (hk : f.kind = AuthResult.kind) (hr : f.repeated = false) (l : List (List Node)) (b : Val)
    (h : runField pf f AuthResult.kind.zero l = some b) : AuthResult.ofVal b = AuthResult.read l := by
  have ha : AuthResult.kind.zero.IsStruct 2 := ⟨_, rfl, rfl⟩
  unfold AuthResult.ofVal AuthResult.read
  congr 1
  · exact field_structs pf f _ hk hr "dkim" 0 DKIMAuthResult.kind (by rfl) DKIMAuthResult.ofVal DKIMAuthResult.read
      (fun c hc => read_DKIMAuthResult pf ("", false, DKIMAuthResult.kind) rfl rfl [c] _ (runField_element pf _ c hc))
      l _ _ ha rfl h
  · exact field_structs pf f _ hk hr "spf" 1 SPFAuthResult.kind (by rfl) SPFAuthResult.ofVal SPFAuthResult.read
      (fun c hc => read_SPFAuthResult pf ("", false, SPFAuthResult.kind) rfl rfl [c] _ (runField_element pf _ c hc))
      l _ _ ha rfl h

/-- The decoding of `Record` elements that decode without error is the `Record`
they state. -/
theorem read_Record (pf : String → Except Error Float32) (f : Field)
    (hk : f.kind = Record.kind) (hr : f.repeated = false) (l : List (List Node)) (b : Val)
    (h : runField pf f Record.kind.zero l = some b) : Record.ofVal b = Record.read l := by
  have ha : Record.kind.zero.IsStruct 3 := ⟨_, rfl, rfl⟩
  unfold Record.ofVal Record.read
  congr 1
  · exact read_Row pf ("row", false, Row.kind) rfl rfl _ _
      (runField_nested pf f _ hk hr "row" 0 _ (by rfl) l _ _ ha h)
  · exact read_Identifier pf ("identifiers", false, Identifier.kind) rfl rfl _ _
      (runField_nested pf f _ hk hr "identifiers" 1 _ (by rfl) l _ _ ha h)
  · exact read_AuthResult pf ("auth_results", false, AuthResult.kind) rfl rfl _ _
      (runField_nested pf f _ hk hr "auth_results" 2 _ (by rfl) l _ _ ha h)

/-- The decoding of the children of the root element, when it ends without
error, is the report read off the document by the struct tags. -/
theorem read_Feedback (pf : String → Except Error Float32) (d : Document) (v : Val)
    (h : unmarshalNodes pf Feedback.kind Feedback.kind.zero "" d.children = (v, none)) :
    Feedback.ofVal d.rootName v = Feedback.read pf d := by
  have ha : Feedback.kind.zero.IsStruct 4 := ⟨_, rfl, rfl⟩
  have h1 : runField pf ("", false, Feedback.kind) Feedback.kind.zero [d.children] = some v := by
    rw [runField_element pf _ _ (by rw [h])]
    simp [decodeElement, h]
  unfold Feedback.ofVal Feedback.read
  simp only [← under_single]
  congr 1
  · exact field_f32 pf ("", false, Feedback.kind) _ rfl rfl "version" 0 (by rfl) [d.children] _ _ ha rfl h1
  · exact read_Metadata pf ("report_metadata", false, Metadata.kind) rfl rfl _ _
      (runField_nested pf ("", false, Feedback.kind) _ rfl rfl "report_metadata" 1 _ (by rfl) [d.children] _ _ ha h1)
  · exact read_PolicyPublished pf ("policy_published", false, PolicyPublished.kind) rfl rfl _ _
      (runField_nested pf ("", false, Feedback.kind) _ rfl rfl "policy_published" 2 _ (by rfl) [d.children] _ _ ha h1)
  · exact field_structs pf ("", false, Feedback.kind) _ rfl rfl "record" 3 Record.kind (by rfl) Record.ofVal Record.read
      (fun c hc => read_Record pf ("", false, Record.kind) rfl rfl [c] _ (runField_element pf _ c hc))
      [d.children] _ _ ha rfl h1
/-- Decoding a well-formed document with root `feedback` ends with nil or with an
error, and with nil exactly when every number of the data model is a numeral. -/
theorem Decode_nil_iff (pf : String → Except Error Float32) (d : Document)
    (hw : d.WellFormed) (hfb : d.name.Local = "feedback") :
    ((Decode pf d.tokens).2 = .nil ↔ validNodes pf Feedback.kind d.children) ∧
      ((Decode pf d.tokens).2 = .nil ∨ ∃ e, (Decode pf d.tokens).2 = .err e) := by
  have hdoc := Decode_document pf d hw
  simp only [hfb, ne_eq, not_true_eq_false, if_false] at hdoc
  have hv := unmarshalNodes_valid pf d.children Feedback.kind Feedback.kind.zero ""
  rw [hdoc]
  rcases hx : unmarshalNodes pf Feedback.kind Feedback.kind.zero "" d.children with ⟨v, _ | e⟩
  · rw [hx] at hv
    simp only [true_iff] at hv
    simp [hv.1]
  · rw [hx] at hv
    simp only [false_iff, reduceCtorEq, not_and] at hv
    have hnot : ¬ validNodes pf Feedback.kind d.children := fun h => hv h trivial
    simp [hnot]

/-- `Decode` on a well-formed feedback document: no error, and the value is the
report read off the document by the struct tags. -/
theorem Decode_read (pf : String → Except Error Float32) (d : Document)
    (hw : d.WellFormed) (h : d.IsFeedback pf) :
    Decode pf d.tokens = (Feedback.read pf d, .nil) := by
  have hdoc := Decode_document pf d hw
  simp only [h.1, ne_eq, not_true_eq_false, if_false] at hdoc
  have hv := (unmarshalNodes_valid pf d.children Feedback.kind Feedback.kind.zero "").2
    ⟨h.2, trivial⟩
  rw [hdoc]
  rcases hx : unmarshalNodes pf Feedback.kind Feedback.kind.zero "" d.children with ⟨v, _ | e⟩
  · simp only
    rw [read_Feedback pf d v hx]
  · rw [hx] at hv
    simp at hv

/-- `Parse` on a well-formed feedback document returns the report read off the
document by the struct tags, and the error it drops is nil. -/
theorem Parse_read (L : Lib) (r : Reader) (d : Document) (hr : Reads L r d)
    (hd : d.IsFeedback L.ParseFloat32) :
    Decode L.ParseFloat32 (L.rawTokens r) = (Feedback.read L.ParseFloat32 d, .nil) ∧
      Parse L r = Feedback.read L.ParseFloat32 d := by
  have h := Decode_read L.ParseFloat32 d hr.1 hd
  unfold Parse
  rw [hr.2, h]
  exact ⟨rfl, rfl⟩

/-- A well-formed document with root `feedback` that decodes without error is a
feedback document. -/
theorem IsFeedback_of_Decode (pf : String → Except Error Float32) (d : Document)
    (hw : d.WellFormed) (hfb : d.name.Local = "feedback")
    (h : (Decode pf d.tokens).2 = .nil) : d.IsFeedback pf :=
  ⟨hfb, ((Decode_nil_iff pf d hw hfb).1).1 h⟩

/-- A field whose element is absent keeps the value it had: zero, in a fresh
value. -/
theorem unmarshalNodes_absent (pf : String → Except Error Float32) (fs : List Field)
    (n : String) (i : Nat) (f : Field) (hl : lookup fs n 0 = some (i, f)) (cs : List Node)
    (habs : elementsNamed n cs = []) (v : Val) (data : String) (v1 : Val)
    (hv : v.IsStruct fs.length) (h : unmarshalNodes pf (.struct fs) v data cs = (v1, none)) :
    v1.field i = v.field i := by
  have h1 := runField_of_unmarshalNodes pf fs n i f hl cs v data v1 hv h
  rw [habs, runField_nil] at h1
  injection h1 with h1
  exact h1.symm

/-- The number read for an integer field whose element holds the decimal numeral
of an integer in the range of `int`, with white space around it, is that
integer. -/
theorem intAt_decimal (l : List (List Node)) (i : Int) (pad1 pad2 : String)
    (hlo : -2 ^ 63 ≤ i) (hhi : i < 2 ^ 63)
    (hp : ∀ c ∈ pad1.data ++ pad2.data, c.isWhitespace = true)
    (h : strAt l = pad1 ++ decimal i ++ pad2) : intAt l = i := by
  unfold strAt at h
  unfold intAt
  cases hl : l.getLast? with
  | none =>
    rw [hl] at h
    simp only at h
    have h1 := congrArg String.data h
    simp only [String.data_append] at h1
    have h2 : (decimal i).data = [] := by
      cases hd : (decimal i).data with
      | nil => rfl
      | cons c cs =>
        rw [hd] at h1
        simp at h1
    exact absurd (String.ext h2) (decimal_ne_empty i)
  | some ks =>
    rw [hl] at h
    simp only at h ⊢
    rw [h, intOf_decimal i pad1 pad2 hlo hhi hp]

/-- After a decoding of a document without error: the records are the
decodings of the `record` children of the root, each without error, and
`Metadata.Error` holds the texts of the `error` elements. -/
theorem Parse_records (L : Lib) (r : Reader) (d : Document) (hr : Reads L r d)
    (hfb : d.name.Local = "feedback")
    (hok : (Decode L.ParseFloat32 (L.rawTokens r)).2 = .nil) :
    (Parse L r).Records =
        (elementsNamed "record" d.children).map
          (fun c => Record.ofVal (decodeElement L.ParseFloat32 Record.kind c)) ∧
      (Parse L r).Metadata.Error =
        (under "error" (elementsNamed "report_metadata" d.children)).map textOf ∧
      ∀ c ∈ elementsNamed "record" d.children,
        (unmarshalNodes L.ParseFloat32 Record.kind Record.kind.zero "" c).2 = none := by
  have hdoc := Decode_document L.ParseFloat32 d hr.1
  simp only [hfb, ne_eq, not_true_eq_false, if_false] at hdoc
  unfold Parse
  rw [hr.2] at hok ⊢
  rw [hdoc] at hok ⊢
  rcases hx : unmarshalNodes L.ParseFloat32 Feedback.kind Feedback.kind.zero "" d.children with
    ⟨v, _ | e⟩
  · simp only [hx]
    have hnone : (unmarshalNodes L.ParseFloat32 Feedback.kind Feedback.kind.zero ""
        d.children).2 = none := by rw [hx]
    have hv : v = decodeElement L.ParseFloat32 Feedback.kind d.children := by
      simp [decodeElement, hx]
    unfold Feedback.kind at hnone
    have hrec := runField_decodeElement L.ParseFloat32 _ "record" 3
      ("record", true, Record.kind) (by rfl) d.children hnone
    have hmeta := runField_decodeElement L.ParseFloat32 _ "report_metadata" 1
      ("report_metadata", false, Metadata.kind) (by rfl) d.children hnone
    have herr := runField_nested L.ParseFloat32 ("report_metadata", false, Metadata.kind) _
      rfl rfl "error" 5 ("error", true, .string) (by rfl) _ _ _ ⟨_, rfl, rfl⟩ hmeta
    obtain ⟨h1, h1ok⟩ := runField_repeated L.ParseFloat32 _ (by rfl) _ _ _ hrec
    have h2 := (runField_repeated L.ParseFloat32 _ (by rfl) _ _ _ herr).1
    have h1a : (v.field 3).toList =
        [] ++ (elementsNamed "record" d.children).map
          (decodeElement L.ParseFloat32 Record.kind) := by
      rw [hv]; exact h1
    have h2a : ((v.field 1).field 5).toList =
        [] ++ ((elementsNamed "report_metadata" d.children).flatMap
          (elementsNamed "error")).map (decodeElement L.ParseFloat32 .string) := by
      rw [hv]; exact h2
    refine ⟨?_, ?_, h1ok⟩
    · simp only [Feedback.ofVal]
      rw [h1a]
      simp
    · simp only [Feedback.ofVal, Metadata.ofVal]
      rw [h2a]
      simp [decodeElement, unmarshalNodes_string, Val.toStr, String.empty_append_eq,
        Function.comp_def, under]
  · rw [hx] at hok
    simp at hok

/-! ## Properties of the entry points -/

/-- The example documents have one element at top level. -/
theorem examples_wellFormed :
    sampleDocument.WellFormed ∧ sparseDocument.WellFormed ∧ bogusDocument.WellFormed ∧
      threeRecordsDocument.WellFormed ∧ smallDocument.WellFormed ∧
      Document.WellFormed { smallDocument with children := smallDocumentExtended } ∧
      badCountDocument.WellFormed ∧ rfcDocument.WellFormed := by
  simp [Document.WellFormed, sampleDocument, sparseDocument, bogusDocument,
    threeRecordsDocument, smallDocument, badCountDocument, rfcDocument, Node.isElement]

set_option maxRecDepth 100000 in
/-- The example documents, but for `badCountDocument`, are feedback documents:
their numbers are numerals. -/
theorem examples_isFeedback :
    sampleDocument.IsFeedback exampleParseFloat32 ∧
      sparseDocument.IsFeedback exampleParseFloat32 ∧
      bogusDocument.IsFeedback exampleParseFloat32 ∧
      threeRecordsDocument.IsFeedback exampleParseFloat32 ∧
      rfcDocument.IsFeedback exampleParseFloat32 :=
  ⟨IsFeedback_of_Decode _ _ examples_wellFormed.1 rfl (by decide),
    IsFeedback_of_Decode _ _ examples_wellFormed.2.1 rfl (by decide),
    IsFeedback_of_Decode _ _ examples_wellFormed.2.2.1 rfl (by decide),
    IsFeedback_of_Decode _ _ examples_wellFormed.2.2.2.1 rfl (by decide),
    IsFeedback_of_Decode _ _ examples_wellFormed.2.2.2.2.2.2.2 rfl (by decide)⟩

set_option maxRecDepth 100000 in
/-- The document `schemaDocument` is a well-formed feedback document. -/
theorem schemaDocument_isFeedback :
    schemaDocument.WellFormed ∧ schemaDocument.IsFeedback exampleParseFloat32 := by
  have hw : schemaDocument.WellFormed := by
    simp [Document.WellFormed, schemaDocument, Node.isElement]
  exact ⟨hw, IsFeedback_of_Decode _ _ hw rfl (by decide)⟩

/-- C1. Code: for every well-formed feedback document with one `record` whose
`identifiers` hold the envelope sender in `envelope_from`, as the schema quoted
in `xml.go` has it, and no `mail_from`: `Decode` reports no error, `Parse`
returns one record, and every field but `MailFrom` is the text (for a number:
the value of the numeral) of the schema element of the field; but `MailFrom` is
empty, where the schema element `envelope_from` holds text, so what `Parse`
returns is not the report the document states by the schema.  The numbers are
measured against the decimal numerals: an integer field whose element holds the
numeral of `i`, with white space around it, is `i`. -/
theorem Parse_canonical (L : Lib) (r : Reader) (d : Document) (hr : Reads L r d)
    (hd : d.IsFeedback L.ParseFloat32)
    (hone : (elementsNamed "record" d.children).length = 1)
    (hno : ∀ c ∈ elementsNamed "record" d.children,
      under "mail_from" (elementsNamed "identifiers" c) = [])
    (henv : ∀ c ∈ elementsNamed "record" d.children,
      strAt (under "envelope_from" (elementsNamed "identifiers" c)) ≠ "") :
    (Decode L.ParseFloat32 (L.rawTokens r)).2 = .nil ∧
      (Parse L r).Records.length = 1 ∧
      (Parse L r).XMLName = (Feedback.readSchema L.ParseFloat32 d).XMLName ∧
      (Parse L r).Version = (Feedback.readSchema L.ParseFloat32 d).Version ∧
      (Parse L r).Metadata = (Feedback.readSchema L.ParseFloat32 d).Metadata ∧
      (Parse L r).Policy = (Feedback.readSchema L.ParseFloat32 d).Policy ∧
      (Parse L r).Records.map (fun rec =>
          (rec.Row, rec.Identifier.EnvelopeTo, rec.Identifier.HeaderFrom, rec.AuthResult)) =
        (Feedback.readSchema L.ParseFloat32 d).Records.map (fun rec =>
          (rec.Row, rec.Identifier.EnvelopeTo, rec.Identifier.HeaderFrom, rec.AuthResult)) ∧
      (Parse L r).Metadata.OrgName =
        strAt (under "org_name" (elementsNamed "report_metadata" d.children)) ∧
      (Parse L r).Metadata.ReportId =
        strAt (under "report_id" (elementsNamed "report_metadata" d.children)) ∧
      (Parse L r).Metadata.DateRange.Begin =
        intAt (under "begin" (under "date_range"
          (elementsNamed "report_metadata" d.children))) ∧
      (Parse L r).Metadata.DateRange.End =
        intAt (under "end" (under "date_range"
          (elementsNamed "report_metadata" d.children))) ∧
      (∀ (l : List (List Node)) (i : Int) (pad1 pad2 : String), -2 ^ 63 ≤ i → i < 2 ^ 63 →
        (∀ c ∈ pad1.data ++ pad2.data, c.isWhitespace = true) →
        strAt l = pad1 ++ decimal i ++ pad2 → intAt l = i) ∧
      (∀ rec ∈ (Parse L r).Records, rec.Identifier.MailFrom = "") ∧
      (∀ rec ∈ (Feedback.readSchema L.ParseFloat32 d).Records,
        rec.Identifier.MailFrom ≠ "") ∧
      Parse L r ≠ Feedback.readSchema L.ParseFloat32 d := by
  obtain ⟨hdec, hp⟩ := Parse_read L r d hr hd
  have hmf : ∀ rec ∈ (Feedback.read L.ParseFloat32 d).Records,
      rec.Identifier.MailFrom = "" := by
    intro rec hrec
    simp only [Feedback.read] at hrec
    obtain ⟨c, hc, rfl⟩ := List.mem_map.1 hrec
    simp only [Record.read, Identifier.read, under_single, hno c hc]
    rfl
  have hms : ∀ rec ∈ (Feedback.readSchema L.ParseFloat32 d).Records,
      rec.Identifier.MailFrom ≠ "" := by
    intro rec hrec
    simp only [Feedback.readSchema] at hrec
    obtain ⟨c, hc, rfl⟩ := List.mem_map.1 hrec
    simp only [Record.readSchema, Identifier.readSchema, under_single]
    exact henv c hc
  have hlen : (Feedback.read L.ParseFloat32 d).Records.length = 1 := by
    simp [Feedback.read, hone]
  rw [hdec, hp]
  refine ⟨rfl, hlen, rfl, rfl, rfl, rfl, ?_, rfl, rfl, rfl, rfl, ?_, hmf, hms, ?_⟩
  · simp only [Feedback.read, Feedback.readSchema, List.map_map]
    rfl
  · intro l i pad1 pad2 hlo hhi hpad h
    exact intAt_decimal l i pad1 pad2 hlo hhi hpad h
  · intro heq
    cases hrecs : (Feedback.read L.ParseFloat32 d).Records with
    | nil =>
      rw [hrecs] at hlen
      simp at hlen
    | cons rec rest =>
      have h1 := hmf rec (by rw [hrecs]; simp)
      have h2 := hms rec (by rw [← heq, hrecs]; simp)
      exact h2 h1

set_option maxRecDepth 100000 in
/-- C1 at `schemaDocument`, the canonical report by the schema: the values of the
spec's example are returned, and the number in `count`, written with white space
around it; the envelope sender `sender.example.net` of `envelope_from` is not,
`MailFrom` is empty. -/
theorem Parse_canonical_witness :
    Feedback.readSchema exampleParseFloat32 schemaDocument = schemaReport ∧
      schemaReport.Records.map (fun rec => rec.Identifier) =
        [⟨"rcpt.example", "sender.example.net", "example.com"⟩] ∧
      (Parse exampleLib (reader 11)).Records.map (fun rec => rec.Identifier) =
        [⟨"rcpt.example", "", "example.com"⟩] ∧
      Parse exampleLib (reader 11) ≠ schemaReport ∧
      (Decode exampleLib.ParseFloat32 (exampleLib.rawTokens (reader 11))).2 = .nil ∧
      (Parse exampleLib (reader 11)).Metadata.OrgName = "Example Org" ∧
      (Parse exampleLib (reader 11)).Metadata.ReportId = "12345" ∧
      (Parse exampleLib (reader 11)).Metadata.DateRange.Begin = 1000 ∧
      (Parse exampleLib (reader 11)).Metadata.DateRange.End = 2000 ∧
      (Parse exampleLib (reader 11)).Records.length = 1 ∧
      (Parse exampleLib (reader 11)).Records.map (fun rec => rec.Row.Count) = [2] ∧
      decimal 1000 = "1000" ∧ decimal (-12) = "-12" ∧ decimal 0 = "0" := by
  have hs : Feedback.readSchema exampleParseFloat32 schemaDocument = schemaReport := by
    decide
  have h := Parse_canonical exampleLib (reader 11) schemaDocument
    ⟨schemaDocument_isFeedback.1, rfl⟩ schemaDocument_isFeedback.2 rfl (by decide) (by decide)
  refine ⟨hs, rfl, by decide, ?_, h.1, by decide, by decide, by decide, by decide, h.2.1,
    by decide, by decide, by decide, by decide⟩
  rw [← hs]
  exact h.2.2.2.2.2.2.2.2.2.2.2.2.2.2

/-- C2. Code: for every well-formed document with root `feedback` in which an
element of the data model that is a number holds no numeral, `Decode` returns an
error, and `Parse` returns to its caller the value that `Decode` filled up to the
error; the error is dropped. -/
theorem Parse_returns_partial_value (L : Lib) (r : Reader) (d : Document)
    (hr : Reads L r d) (hfb : d.name.Local = "feedback")
    (hbad : ¬ validNodes L.ParseFloat32 Feedback.kind d.children) :
    ∃ e, Decode L.ParseFloat32 (L.rawTokens r) = (Parse L r, .err e) := by
  obtain ⟨h1, h2⟩ := Decode_nil_iff L.ParseFloat32 d hr.1 hfb
  rw [← hr.2] at h1 h2
  rcases h2 with h2 | ⟨e, h2⟩
  · exact absurd (h1.1 h2) hbad
  · exact ⟨e, Prod.ext rfl h2⟩

set_option maxRecDepth 100000 in
/-- C2 at malformed inputs: a `count` that is no number (`badCountDocument`),
bytes that stop being XML, and a mismatched end tag.  `Decode` returns an error
each time, and `Parse` returns the `Feedback` filled up to the error. -/
theorem Parse_returns_partial_value_witness :
    (∃ e, Decode exampleLib.ParseFloat32 (exampleLib.rawTokens (reader 9)) =
        (Parse exampleLib (reader 9), .err e)) ∧
      (Decode exampleLib.ParseFloat32 (exampleLib.rawTokens (reader 9))).2 =
        .err (.NumError "ParseInt" "many" .ErrSyntax) ∧
      (Parse exampleLib (reader 9)).Metadata.ReportId = "12345" ∧
      (Parse exampleLib (reader 9)).Records = [] ∧
      (Parse exampleLib (reader 9)).Policy.Domain = "" ∧
      (Decode exampleLib.ParseFloat32 (exampleLib.rawTokens (reader 7))).2 =
        .err (.SyntaxError "expected element name after <") ∧
      (Parse exampleLib (reader 7)).Metadata.OrgName = "Example Org" ∧
      (Decode exampleLib.ParseFloat32 (exampleLib.rawTokens (reader 8))).2 =
        .err (.SyntaxError "element <email> closed by </report_id>") ∧
      (Parse exampleLib (reader 8)).Metadata.OrgName = "Example Org" ∧
      (Parse exampleLib (reader 8)).Metadata.Email = "" := by
  refine ⟨Parse_returns_partial_value exampleLib (reader 9) badCountDocument
    ⟨examples_wellFormed.2.2.2.2.2.2.1, rfl⟩ rfl ?_, by decide⟩
  intro hv
  have h := ((Decode_nil_iff exampleParseFloat32 badCountDocument
    examples_wellFormed.2.2.2.2.2.2.1 rfl).1).2 hv
  revert h
  decide

/-- C4. For every well-formed feedback document without the elements
`extra_contact_info`, `adkim`, `aspf`, `selector` and `comment` in their
parents, `Decode` reports no error and `Parse` returns the report read off the
document by the element names of the struct tags (every field whose element is
present holds what the element states), with `ExtraContactInfo`, `Adkim`,
`Aspf`, every `Selector` and every `Comment` the empty string.  More generally,
decoding any struct leaves a field whose element is absent as it was, which is
zero in a fresh value. -/
theorem Parse_omitted_elements (L : Lib) (r : Reader) (d : Document) (hr : Reads L r d)
    (hd : d.IsFeedback L.ParseFloat32)
    (h1 : under "extra_contact_info" (elementsNamed "report_metadata" d.children) = [])
    (h2 : under "adkim" (elementsNamed "policy_published" d.children) = [])
    (h3 : under "aspf" (elementsNamed "policy_published" d.children) = [])
    (h4 : ∀ c ∈ elementsNamed "record" d.children,
      ∀ q ∈ under "dkim" (under "auth_results" [c]), elementsNamed "selector" q = [])
    (h5 : ∀ c ∈ elementsNamed "record" d.children,
      ∀ q ∈ under "reason" (under "policy_evaluated" (under "row" [c])),
        elementsNamed "comment" q = []) :
    (Decode L.ParseFloat32 (L.rawTokens r)).2 = .nil ∧
      Parse L r = Feedback.read L.ParseFloat32 d ∧
      (Parse L r).Metadata.ExtraContactInfo = "" ∧
      (Parse L r).Policy.Adkim = "" ∧
      (Parse L r).Policy.Aspf = "" ∧
      (∀ rec ∈ (Parse L r).Records, ∀ k ∈ rec.AuthResult.Dkim, k.Selector = "") ∧
      (∀ rec ∈ (Parse L r).Records, ∀ o ∈ rec.Row.PolicyEvaluated.OverrideReasons,
        o.Comment = "") ∧
      (∀ (fs : List Field) (n : String) (i : Nat) (f : Field) (cs : List Node) (v v1 : Val)
        (data : String), lookup fs n 0 = some (i, f) → elementsNamed n cs = [] →
        v.IsStruct fs.length →
        unmarshalNodes L.ParseFloat32 (.struct fs) v data cs = (v1, none) →
        v1.field i = v.field i) := by
  obtain ⟨hdec, hp⟩ := Parse_read L r d hr hd
  rw [hdec, hp]
  refine ⟨rfl, rfl, ?_, ?_, ?_, ?_, ?_, ?_⟩
  · simp only [Feedback.read, Metadata.read, h1]
    rfl
  · simp only [Feedback.read, PolicyPublished.read, h2]
    rfl
  · simp only [Feedback.read, PolicyPublished.read, h3]
    rfl
  · intro rec hrec k hk
    simp only [Feedback.read] at hrec
    obtain ⟨c, hc, rfl⟩ := List.mem_map.1 hrec
    simp only [Record.read, AuthResult.read] at hk
    obtain ⟨q, hq, rfl⟩ := List.mem_map.1 hk
    simp only [DKIMAuthResult.read, under_single, h4 c hc q hq]
    rfl
  · intro rec hrec o ho
    simp only [Feedback.read] at hrec
    obtain ⟨c, hc, rfl⟩ := List.mem_map.1 hrec
    simp only [Record.read, Row.read, PolicyEvaluated.read] at ho
    obtain ⟨q, hq, rfl⟩ := List.mem_map.1 ho
    simp only [PolicyOverrideReason.read, under_single, h5 c hc q hq]
    rfl
  · intro fs n i f cs v v1 data hl habs hv h
    exact unmarshalNodes_absent L.ParseFloat32 fs n i f hl cs habs v data v1 hv h

set_option maxRecDepth 100000 in
/-- C4 at `sparseDocument`, which leaves out the five optional elements of
`sampleDocument`. -/
theorem Parse_omitted_elements_witness :
    (Decode exampleLib.ParseFloat32 (exampleLib.rawTokens (reader 2))).2 = .nil ∧
      (Parse exampleLib (reader 2)).Metadata.ExtraContactInfo = "" ∧
      (Parse exampleLib (reader 2)).Policy.Adkim = "" ∧
      (Parse exampleLib (reader 2)).Policy.Aspf = "" ∧
      (∀ rec ∈ (Parse exampleLib (reader 2)).Records,
        ∀ k ∈ rec.AuthResult.Dkim, k.Selector = "") ∧
      (∀ rec ∈ (Parse exampleLib (reader 2)).Records,
        ∀ o ∈ rec.Row.PolicyEvaluated.OverrideReasons, o.Comment = "") ∧
      (Parse exampleLib (reader 2)).Metadata.OrgName = "Example Org" ∧
      (Parse exampleLib (reader 2)).Policy.P = "none" ∧
      (Parse exampleLib (reader 2)).Policy.Pct = 100 ∧
      (Parse exampleLib (reader 2)).Records.map
        (fun rec => rec.AuthResult.Dkim.map (fun k => k.Result)) = [["pass"]] := by
  have h := Parse_omitted_elements exampleLib (reader 2) sparseDocument
    ⟨examples_wellFormed.2.1, rfl⟩ examples_isFeedback.2.1 rfl rfl rfl (by decide) (by decide)
  refine ⟨h.1, h.2.2.1, h.2.2.2.1, h.2.2.2.2.1, h.2.2.2.2.2.1, h.2.2.2.2.2.2.1, ?_⟩
  rw [h.2.1]
  decide

/-- C5. In every well-formed feedback document without an element named
`mail_from` in `identifiers` (the schema quoted in `xml.go` names the element
`envelope_from`), the field `MailFrom` of every record is empty, whatever
`envelope_from` holds: the tag of `MailFrom` is `mail_from`, so `envelope_from`
is an element without a field and is skipped. -/
theorem Parse_drops_envelope_from (L : Lib) (r : Reader) (d : Document) (hr : Reads L r d)
    (hd : d.IsFeedback L.ParseFloat32)
    (hno : ∀ c ∈ elementsNamed "record" d.children,
      under "mail_from" (elementsNamed "identifiers" c) = []) :
    ∀ rec ∈ (Parse L r).Records, rec.Identifier.MailFrom = "" := by
  intro rec hrec
  rw [(Parse_read L r d hr hd).2] at hrec
  simp only [Feedback.read] at hrec
  obtain ⟨c, hc, rfl⟩ := List.mem_map.1 hrec
  simp only [Record.read, Identifier.read, under_single, hno c hc]
  rfl

set_option maxRecDepth 100000 in
/-- C5 at `rfcDocument`, whose `identifiers` holds `envelope_from` with the text
`sender.example.net`: `MailFrom` is empty, the neighbours are stored. -/
theorem Parse_drops_envelope_from_witness :
    (elementsNamed "record" rfcDocument.children).map
        (fun c => under "envelope_from" (elementsNamed "identifiers" c)) =
        [[[.text "sender.example.net"]]] ∧
      (∀ rec ∈ (Parse exampleLib (reader 10)).Records, rec.Identifier.MailFrom = "") ∧
      (Parse exampleLib (reader 10)).Records.map (fun rec => rec.Identifier) =
        [⟨"rcpt.example", "", "example.com"⟩] :=
  ⟨rfl,
    Parse_drops_envelope_from exampleLib (reader 10) rfcDocument
      ⟨examples_wellFormed.2.2.2.2.2.2.2, rfl⟩ examples_isFeedback.2.2.2.2 (by decide),
    by decide⟩

/-- C6. For every well-formed feedback document (no hypothesis restricts the
text of an element that is no number), `Decode` reports no error, and every
enumeration-typed field of what `Parse` returns is the text of its element,
verbatim: `Adkim`, `Aspf` (`Alignment`), `P`, `Sp`, `Disposition`
(`Disposition`), the `Dkim` and `Spf` of `policy_evaluated` (`DMARCResult`), the
`Type` of every reason (`PolicyOverrideType`), the `Result` of every DKIM result
(`DKIMResult`), and the `Scope` and `Result` of every SPF result
(`SPFDomainScope`, `SPFResult`). -/
theorem Parse_enum_verbatim (L : Lib) (r : Reader) (d : Document) (hr : Reads L r d)
    (hd : d.IsFeedback L.ParseFloat32) :
    (Decode L.ParseFloat32 (L.rawTokens r)).2 = .nil ∧
      (Parse L r).Records.map (fun rec => rec.AuthResult.Spf.map (fun s => s.Result)) =
        (elementsNamed "record" d.children).map (fun c =>
          (under "spf" (under "auth_results" [c])).map (fun q =>
            strAt (elementsNamed "result" q))) ∧
      (Parse L r).Records.map (fun rec => rec.AuthResult.Spf.map (fun s => s.Scope)) =
        (elementsNamed "record" d.children).map (fun c =>
          (under "spf" (under "auth_results" [c])).map (fun q =>
            strAt (elementsNamed "scope" q))) ∧
      (Parse L r).Records.map (fun rec => rec.AuthResult.Dkim.map (fun k => k.Result)) =
        (elementsNamed "record" d.children).map (fun c =>
          (under "dkim" (under "auth_results" [c])).map (fun q =>
            strAt (elementsNamed "result" q))) ∧
      (Parse L r).Records.map
          (fun rec => rec.Row.PolicyEvaluated.OverrideReasons.map (fun o => o.Typ)) =
        (elementsNamed "record" d.children).map (fun c =>
          (under "reason" (under "policy_evaluated" (under "row" [c]))).map (fun q =>
            strAt (elementsNamed "type" q))) ∧
      (Parse L r).Records.map (fun rec => (rec.Row.PolicyEvaluated.Disposition,
          rec.Row.PolicyEvaluated.Dkim, rec.Row.PolicyEvaluated.Spf)) =
        (elementsNamed "record" d.children).map (fun c =>
          (strAt (under "disposition" (under "policy_evaluated" (under "row" [c]))),
            strAt (under "dkim" (under "policy_evaluated" (under "row" [c]))),
            strAt (under "spf" (under "policy_evaluated" (under "row" [c]))))) ∧
      (Parse L r).Policy.Adkim =
        strAt (under "adkim" (elementsNamed "policy_published" d.children)) ∧
      (Parse L r).Policy.Aspf =
        strAt (under "aspf" (elementsNamed "policy_published" d.children)) ∧
      (Parse L r).Policy.P =
        strAt (under "p" (elementsNamed "policy_published" d.children)) ∧
      (Parse L r).Policy.Sp =
        strAt (under "sp" (elementsNamed "policy_published" d.children)) := by
  obtain ⟨hdec, hp⟩ := Parse_read L r d hr hd
  rw [hdec, hp]
  refine ⟨rfl, ?_, ?_, ?_, ?_, ?_, rfl, rfl, rfl, rfl⟩ <;>
    simp [Feedback.read, Record.read, AuthResult.read, SPFAuthResult.read,
      DKIMAuthResult.read, Row.read, PolicyEvaluated.read, PolicyOverrideReason.read,
      under_single, Function.comp_def]

set_option maxRecDepth 100000 in
/-- C6 at `bogusDocument`: the SPF result `bogus_value` and the other texts
outside the enumerations are stored as written. -/
theorem Parse_enum_verbatim_witness :
    (Decode exampleLib.ParseFloat32 (exampleLib.rawTokens (reader 3))).2 = .nil ∧
      (Parse exampleLib (reader 3)).Records.map
        (fun rec => rec.AuthResult.Spf.map (fun s => s.Result)) = [["bogus_value"]] ∧
      Parse exampleLib (reader 3) = bogusReport ∧
      (Parse exampleLib (reader 3)).enumTexts =
        ["relaxed?", "STRICT", "monitor", " reject ", "drop", "maybe", "PASS", "because",
          "bogus_dkim", "ehlo", "bogus_value"] := by
  have h := Parse_enum_verbatim exampleLib (reader 3) bogusDocument
    ⟨examples_wellFormed.2.2.1, rfl⟩ examples_isFeedback.2.2.1
  exact ⟨h.1, h.2.1.trans (by decide), by decide, by decide⟩
/-- C3. For every well-formed feedback document: `Records` has one entry for
every `record` child of the root, the i-th entry being the decoding of the i-th
`record` element; `Metadata.Error` holds the texts of the `error` children of
`report_metadata` in document order; and in every record the override reasons,
the DKIM results and the SPF results are the decodings of the `reason`, `dkim`
and `spf` children of their parents, in document order.  (Were a parent element
written more than once, its children count in the order they come.) -/
theorem Parse_repeated_elements (L : Lib) (r : Reader) (d : Document) (hr : Reads L r d)
    (hd : d.IsFeedback L.ParseFloat32) :
    (Parse L r).Records =
        (elementsNamed "record" d.children).map
          (fun c => Record.ofVal (decodeElement L.ParseFloat32 Record.kind c)) ∧
      (Parse L r).Records.length = (elementsNamed "record" d.children).length ∧
      (Parse L r).Metadata.Error =
        (under "error" (elementsNamed "report_metadata" d.children)).map textOf ∧
      (Parse L r).Metadata.Error.length =
        (under "error" (elementsNamed "report_metadata" d.children)).length ∧
      ∀ c ∈ elementsNamed "record" d.children,
        (Record.ofVal (decodeElement L.ParseFloat32 Record.kind c)).Row.PolicyEvaluated.OverrideReasons =
            (under "reason" (under "policy_evaluated" (elementsNamed "row" c))).map
              (fun q => PolicyOverrideReason.ofVal
                (decodeElement L.ParseFloat32 PolicyOverrideReason.kind q)) ∧
          (Record.ofVal (decodeElement L.ParseFloat32 Record.kind c)).AuthResult.Dkim =
            (under "dkim" (elementsNamed "auth_results" c)).map
              (fun q => DKIMAuthResult.ofVal
                (decodeElement L.ParseFloat32 DKIMAuthResult.kind q)) ∧
          (Record.ofVal (decodeElement L.ParseFloat32 Record.kind c)).AuthResult.Spf =
            (under "spf" (elementsNamed "auth_results" c)).map
              (fun q => SPFAuthResult.ofVal
                (decodeElement L.ParseFloat32 SPFAuthResult.kind q)) := by
  have hok : (Decode L.ParseFloat32 (L.rawTokens r)).2 = .nil := by
    rw [(Parse_read L r d hr hd).1]
  obtain ⟨h1, h2, h3⟩ := Parse_records L r d hr hd.1 hok
  exact ⟨h1, by rw [h1, List.length_map], h2, by rw [h2]; simp [under],
    fun c hc => Record_repeated L.ParseFloat32 c (h3 c hc)⟩

/-- C7. Two well-formed documents, the second got from the first by inserting
one element, with any attributes and any content, somewhere below the root, at a
place where its name matches no field of its parent in the data model (a parent
that is itself skipped, or is a scalar, has no fields): `Decode` returns the same
value and the same error or nil for both, and `Parse` the same value. -/
theorem Parse_ignores_unknown_element (L : Lib) (r r1 : Reader) (d : Document)
    (m : Name) (b : List Attr) (xs ks1 : List Node)
    (hr : Reads L r d)
    (hr1 : Reads L r1 { d with children := ks1 })
    (hins : Inserted m b xs (some Feedback.kind) d.children ks1) :
    Parse L r1 = Parse L r ∧
      Decode L.ParseFloat32 (L.rawTokens r1) = Decode L.ParseFloat32 (L.rawTokens r) := by
  have h : Decode L.ParseFloat32 (L.rawTokens r1) = Decode L.ParseFloat32 (L.rawTokens r) := by
    rw [hr.2, hr1.2, Decode_document _ _ hr.1, Decode_document _ _ hr1.1]
    simp only [unmarshalNodes_inserted _ _ _ _ _ _ _ hins Feedback.kind rfl]
    rfl
  exact ⟨by unfold Parse; rw [h], h⟩

/-- C3 at `threeRecordsDocument`: two errors, three records, and in the first
record two reasons, two DKIM results and one SPF result, all in document
order. -/
theorem Parse_repeated_elements_witness :
    (Parse exampleLib (reader 4)).Records.length = 3 ∧
      (Parse exampleLib (reader 4)).Metadata.Error = ["first", "second"] ∧
      (Parse exampleLib (reader 4)).Records.map (fun rec => rec.Row.SourceIp) =
        ["192.0.2.1", "192.0.2.2", "192.0.2.3"] ∧
      (Parse exampleLib (reader 4)).Records.map
          (fun rec => (rec.Row.PolicyEvaluated.OverrideReasons.map (fun o => o.Typ),
            rec.AuthResult.Dkim.map (fun k => k.Domain),
            rec.AuthResult.Spf.map (fun s => s.Domain))) =
        [(["forwarded", "mailing_list"], ["a.example", "b.example"], ["c.example"]),
          ([], [], []), ([], [], [])] := by
  obtain ⟨h1, h2, h3, _⟩ := Parse_repeated_elements exampleLib (reader 4) threeRecordsDocument
    ⟨examples_wellFormed.2.2.2.1, rfl⟩ examples_isFeedback.2.2.2.1
  refine ⟨h2.trans rfl, h3.trans rfl, ?_, ?_⟩
  · rw [h1]; decide
  · rw [h1]; decide

set_option maxRecDepth 100000 in
/-- C7 at `smallDocument`: an element `ext:extension` with a name space
declaration and an attribute, a child `count` and text, inserted in `row`,
changes nothing. -/
theorem Parse_ignores_unknown_element_witness :
    Parse exampleLib (reader 6) = Parse exampleLib (reader 5) ∧
      (Parse exampleLib (reader 6)).Records.map (fun rec => rec.Row.Count) = [7] ∧
      (Decode exampleLib.ParseFloat32 (exampleLib.rawTokens (reader 6))).2 = .nil := by
  have h := Parse_ignores_unknown_element exampleLib (reader 5) (reader 6) smallDocument
    ⟨"ext", "extension"⟩ [⟨⟨"xmlns", "ext"⟩, "urn:example"⟩, ⟨⟨"", "id"⟩, "7"⟩]
    [elem "count" [.text "not a number"], .text "x"] smallDocumentExtended
    ⟨examples_wellFormed.2.2.2.2.1, rfl⟩ ⟨examples_wellFormed.2.2.2.2.2.1, rfl⟩
    (Inserted.inside _ [elem "report_metadata" [elem "org_name" [.text "Example Org"]]] []
      ⟨"", "record"⟩ [] _ _
      (Inserted.inside _ [] [elem "identifiers" [elem "header_from" [.text "example.com"]]]
        ⟨"", "row"⟩ [] _ _
        (Inserted.here _ [elem "source_ip" [.text "192.0.2.1"]] [elem "count" [.text "7"]]
          rfl)))
  exact ⟨h.1, by rw [h.1]; decide, by rw [h.2]; decide⟩

/-- C8. `GzipParse` panics with the error of `gzip.NewReader` when the stream
does not begin with a valid gzip header, and otherwise returns what `Parse`
returns on the reader of the decompressed bytes; so it returns `Parse d` on
every stream that decompresses to `d`. -/
theorem GzipParse_spec (L : Lib) (b : Reader) :
    (∀ err, L.gzipNewReader b = .error err → GzipParse L b = .panics err) ∧
      (∀ d, L.gzipNewReader b = .ok d → GzipParse L b = .returns (Parse L d)) := by
  constructor
  · intro err h
    simp [GzipParse, h]
  · intro d h
    simp [GzipParse, h]

set_option maxRecDepth 100000 in
/-- C8 at the stand-in gzip reader: the sample document behind the magic bytes
decodes to `sampleReport`, and a stream without them is refused. -/
theorem GzipParse_spec_witness :
    GzipParse exampleLib ⟨[0x1f, 0x8b, 1], none⟩ = .returns (Parse exampleLib (reader 1)) ∧
      GzipParse exampleLib ⟨[0x1f, 0x8b, 1], none⟩ = .returns sampleReport ∧
      GzipParse exampleLib (reader 1) = .panics (.other "gzip: invalid header") :=
  ⟨(GzipParse_spec exampleLib ⟨[0x1f, 0x8b, 1], none⟩).2 (reader 1) rfl, by decide,
    (GzipParse_spec exampleLib (reader 1)).1 _ rfl⟩

/-- C9. Code evaluated at an archive that opens and has no file entry: the
index expression `zr.File[0]` panics with a run-time error, index out of range,
and no error value of the zip library is involved. -/
theorem ZipParse_empty_archive (L : Lib) (path : String)
    (h : L.zipOpenReader path = .ok []) :
    ZipParse L path = .indexOutOfRange 0 0 ∧ ∀ err, ZipParse L path ≠ .panics err := by
  simp [ZipParse, h]

/-- C9 at the empty archive of the stand-in file system. -/
theorem ZipParse_empty_archive_witness :
    exampleLib.zipOpenReader "empty.zip" = .ok [] ∧
      ZipParse exampleLib "empty.zip" = .indexOutOfRange 0 0 :=
  ⟨rfl, (ZipParse_empty_archive exampleLib "empty.zip" rfl).1⟩

/-- C10, refuted as stated: the archive `two.zip` has two file entries, and
`ZipParse` does not fail; it returns the decoding of the first entry. -/
theorem ZipParse_two_entries :
    (∃ zr, exampleLib.zipOpenReader "two.zip" = .ok zr ∧ zr.length = 2) ∧
      ZipParse exampleLib "two.zip" = .returns (Parse exampleLib (reader 5)) ∧
      ¬ ∃ err, ZipParse exampleLib "two.zip" = .panics err := by
  refine ⟨⟨_, rfl, rfl⟩, rfl, ?_⟩
  rintro ⟨err, h⟩
  have h2 : ZipParse exampleLib "two.zip" = .returns (Parse exampleLib (reader 5)) := rfl
  rw [h2] at h
  exact Result.noConfusion h

/-- C10 as amended. For an archive with at least one file entry `ZipParse`
reads the first entry and no other: it panics with the error of `Open` when
the first entry cannot be opened, and otherwise returns what `Parse` returns on
it, whatever entries follow. -/
theorem ZipParse_first_entry (L : Lib) (path : String) (f : ZipFile) (others : List ZipFile)
    (h : L.zipOpenReader path = .ok (f :: others)) :
    (∀ err, f.Open = .error err → ZipParse L path = .panics err) ∧
      (∀ fh, f.Open = .ok fh → ZipParse L path = .returns (Parse L fh)) := by
  constructor
  · intro err ho
    simp [ZipParse, h, ho]
  · intro fh ho
    simp [ZipParse, h, ho]

/-- C10 as amended, at the archive with two entries. -/
theorem ZipParse_first_entry_witness :
    ZipParse exampleLib "two.zip" = .returns (Parse exampleLib (reader 5)) :=
  (ZipParse_first_entry exampleLib "two.zip" ⟨"first.xml", .ok (reader 5)⟩
    [⟨"second.xml", .ok (reader 1)⟩] rfl).2 (reader 5) rfl

end Dmarc
